import Mathlib

/-!
Shallow embedding of `helix-core/src/increment/integer.rs` (the numeric
increment core) and proofs about it.

Modelling conventions:
* Rust strings are modelled as `List Char`.  Every code path that reaches
  the rendering / separator phases only ever handles ASCII characters
  (the regex character classes, the digit parsers and the formatter all
  produce ASCII), so Rust's byte lengths and byte indexes coincide with
  character counts on those paths.
* The regex class `\d` is modelled as the ASCII digits `'0'..'9'`.
* `usize` subtraction in the decimal width computation is modelled in
  `Int`; a negative value corresponds to the arithmetic-overflow panic
  that the Rust code hits when overflow checks are enabled
  (`RunRes.panicked`).
* The extra-separator `while` loop of the source does not terminate when
  the computed spacing is zero; the embedding returns `RunRes.looped`
  for that case (fuel-based recursion, the fuel bounds the number of
  iterations and never runs out when the spacing is positive).
-/

/-- The grouping separator character (`SEPARATOR` in the source). -/
def SEP : Char := '_'

/-- The `Base` enum of the source. -/
inductive Base
  | base2
  | base8
  | base10
  | base16
deriving DecidableEq, Repr

/-- Numeric radix of a `Base` (the enum discriminants in the source). -/
def Base.radix : Base → Nat
  | .base2 => 2
  | .base8 => 8
  | .base10 => 10
  | .base16 => 16

/-- The `NumberPattern` struct of the source: a base together with the
matched lexical marker (the field `pfx` embeds the source's marker
string field). -/
structure NumberPattern where
  base : Base
  pfx : List Char
deriving DecidableEq, Repr

/-- Rust's `char::to_digit` restricted to values below 16.  The source
only ever parses with radix 2, 8, 10 or 16, so characters whose digit
value is 16 or more (`g`..`z`, `G`..`Z`) behave exactly like non-digit
characters and are mapped to `none` here. -/
def charVal (c : Char) : Option Nat :=
  if c = '0' then some 0
  else if c = '1' then some 1
  else if c = '2' then some 2
  else if c = '3' then some 3
  else if c = '4' then some 4
  else if c = '5' then some 5
  else if c = '6' then some 6
  else if c = '7' then some 7
  else if c = '8' then some 8
  else if c = '9' then some 9
  else if c = 'a' then some 10
  else if c = 'b' then some 11
  else if c = 'c' then some 12
  else if c = 'd' then some 13
  else if c = 'e' then some 14
  else if c = 'f' then some 15
  else if c = 'A' then some 10
  else if c = 'B' then some 11
  else if c = 'C' then some 12
  else if c = 'D' then some 13
  else if c = 'E' then some 14
  else if c = 'F' then some 15
  else none

/-- ASCII decimal digit test (the regex class `\d`). -/
def isDecDigit (c : Char) : Bool :=
  match charVal c with
  | some d => d < 10
  | none => false

/-- A character that is a valid digit for radix `r`. -/
def isValidDigit (r : Nat) (c : Char) : Bool :=
  match charVal c with
  | some d => d < r
  | none => false

/-- Digit accumulation loop of Rust's `from_str_radix`: left fold
`acc * r + d`, failing on the first character that is not a valid digit
for the radix. -/
def digitsValGo (r : Nat) : Nat → List Char → Option Nat
  | acc, [] => some acc
  | acc, c :: rest =>
    match charVal c with
    | some d => if d < r then digitsValGo r (acc * r + d) rest else none
    | none => none

/-- Value of a non-empty digit string (no sign handling). -/
def digitsVal? (r : Nat) (s : List Char) : Option Nat :=
  match s with
  | [] => none
  | _ => digitsValGo r 0 s

/-- Total digit-string value, used for specification statements. -/
def digitsToNat (r : Nat) (s : List Char) : Nat :=
  s.foldl (fun a c => a * r + ((charVal c).getD 0)) 0

def U128MAX : Nat := 2 ^ 128 - 1
def I128MAX : Int := 2 ^ 127 - 1
def I128MIN : Int := -(2 ^ 127)

/-- Rust `u128::from_str_radix`: optional sign, then digits; the
accumulated value must stay in range, and a `-` sign is only accepted
when the magnitude is zero. -/
def u128FromStrRadix (r : Nat) (s : List Char) : Option Nat :=
  match s with
  | [] => none
  | c :: rest =>
    if c = '+' then
      match digitsVal? r rest with
      | some n => if n ≤ U128MAX then some n else none
      | none => none
    else if c = '-' then
      match digitsVal? r rest with
      | some n => if n = 0 then some 0 else none
      | none => none
    else
      match digitsVal? r (c :: rest) with
      | some n => if n ≤ U128MAX then some n else none
      | none => none

/-- Rust `i128::from_str_radix`: optional sign, then digits; the value
must lie in `[-(2^127), 2^127 - 1]`. -/
def i128FromStrRadix (r : Nat) (s : List Char) : Option Int :=
  match s with
  | [] => none
  | c :: rest =>
    if c = '+' then
      match digitsVal? r rest with
      | some n => if (n : Int) ≤ I128MAX then some (n : Int) else none
      | none => none
    else if c = '-' then
      match digitsVal? r rest with
      | some n => if (n : Int) ≤ 2 ^ 127 then some (-(n : Int)) else none
      | none => none
    else
      match digitsVal? r (c :: rest) with
      | some n => if (n : Int) ≤ I128MAX then some (n : Int) else none
      | none => none

/-- Rust `i128::saturating_add`, on the mathematical integers. -/
def i128SatAdd (a b : Int) : Int := max I128MIN (min I128MAX (a + b))

/-- The Rust cast `value as i128` applied to a `u128` value: values of
`2^127` and above wrap around to negative integers. -/
def u128AsI128 (n : Nat) : Int :=
  if (n : Int) ≤ I128MAX then (n : Int) else (n : Int) - 2 ^ 128

/-- Little-endian base-`b` digit expansion with explicit fuel (the fuel
only has to dominate the number of digits, so `fuel = n` always
suffices). -/
def toDigitsRevGo (b : Nat) : Nat → Nat → List Nat
  | 0, _ => []
  | fuel + 1, n => if n = 0 then [] else n % b :: toDigitsRevGo b fuel (n / b)

/-- Little-endian base-`b` digits of `n` (empty for `n = 0`). -/
def natToDigits (b : Nat) (n : Nat) : List Nat := toDigitsRevGo b n n

/-- Digit characters used by Rust's formatter (`{:x}` lowercase,
`{:X}` uppercase).  Only digit values below 16 occur. -/
def digitChar (upper : Bool) : Nat → Char
  | 0 => '0'
  | 1 => '1'
  | 2 => '2'
  | 3 => '3'
  | 4 => '4'
  | 5 => '5'
  | 6 => '6'
  | 7 => '7'
  | 8 => '8'
  | 9 => '9'
  | 10 => if upper then 'A' else 'a'
  | 11 => if upper then 'B' else 'b'
  | 12 => if upper then 'C' else 'c'
  | 13 => if upper then 'D' else 'd'
  | 14 => if upper then 'E' else 'e'
  | 15 => if upper then 'F' else 'f'
  | _ => '!'

/-- Minimal base-`b` rendering of a natural number (Rust `{:b}`, `{:o}`,
`{}`, `{:x}`, `{:X}` on a non-negative value). -/
def natToStr (b : Nat) (upper : Bool) (n : Nat) : List Char :=
  if n = 0 then ['0'] else ((natToDigits b n).reverse.map (digitChar upper))

/-- Zero left-padding to a target width (Rust's `{:0w$…}` on a
non-negative value): a floor, never a truncation. -/
def padZeros (w : Nat) (s : List Char) : List Char :=
  List.replicate (w - s.length) '0' ++ s

/-- Rust `format!("{:01$}", v, w)` for a signed value: the sign counts
toward the padded width. -/
def fmtSignedDec (w : Nat) (v : Int) : List Char :=
  if v < 0 then '-' :: padZeros (w - 1) (natToStr 10 false v.natAbs)
  else padZeros w (natToStr 10 false v.natAbs)

/-- Rust `format!("{}", v)` for a signed value. -/
def fmtMinDec (v : Int) : List Char :=
  if v < 0 then '-' :: natToStr 10 false v.natAbs
  else natToStr 10 false v.natAbs

/-- The anchored regex `\d*'<letter>`: a maximal run of ASCII digits
followed by a quote and the given letter; returns the matched text. -/
def quoteMatch (letter : Char) (s : List Char) : Option (List Char) :=
  match s.dropWhile isDecDigit with
  | q :: l :: _ =>
    if q = '\'' ∧ l = letter then some (s.takeWhile isDecDigit ++ [q, l])
    else none
  | _ => none

/-- The anchored regex `(0x|\d*'h)`. -/
def hexMatch (s : List Char) : Option (List Char) :=
  match s with
  | c1 :: c2 :: _ =>
    if c1 = '0' ∧ c2 = 'x' then some ['0', 'x'] else quoteMatch 'h' s
  | _ => quoteMatch 'h' s

/-- The anchored regex `(\d*'d)`. -/
def decMatch (s : List Char) : Option (List Char) := quoteMatch 'd' s

/-- The anchored regex `(0o)`. -/
def octMatch (s : List Char) : Option (List Char) :=
  match s with
  | c1 :: c2 :: _ => if c1 = '0' ∧ c2 = 'o' then some ['0', 'o'] else none
  | _ => none

/-- The anchored regex `(0b|\d*'b)`. -/
def binMatch (s : List Char) : Option (List Char) :=
  match s with
  | c1 :: c2 :: _ =>
    if c1 = '0' ∧ c2 = 'b' then some ['0', 'b'] else quoteMatch 'b' s
  | _ => quoteMatch 'b' s

/-- The source's `find_map` over the ordered pattern list, with the
decimal/empty fallback.  Note that the source applies the matchers to
`selected_text` itself, i.e. the raw token. -/
def findPattern (s : List Char) : NumberPattern :=
  match hexMatch s with
  | some p => ⟨.base16, p⟩
  | none =>
    match decMatch s with
    | some p => ⟨.base10, p⟩
    | none =>
      match octMatch s with
      | some p => ⟨.base8, p⟩
      | none =>
        match binMatch s with
        | some p => ⟨.base2, p⟩
        | none => ⟨.base10, []⟩

/-- Indexes (counted from `i`) of the separator characters in a list;
applied to the reversed token this is the source's
`chars().rev().enumerate().filter_map(...)`. -/
def sepIdxsFrom : Nat → List Char → List Nat
  | _, [] => []
  | i, c :: rest =>
    if c = SEP then i :: sepIdxsFrom (i + 1) rest else sepIdxsFrom (i + 1) rest

/-- Right-to-left separator offsets of the token. -/
def sepRtlIdxs (s : List Char) : List Nat := sepIdxsFrom 0 s.reverse

/-- The token with all separator characters removed. -/
def stripSeps (s : List Char) : List Char := s.filter (· != SEP)

/-- Rust `String::insert` at index `i` (insert before position `i`). -/
def insertAt (i : Nat) (c : Char) (t : List Char) : List Char :=
  t.take i ++ c :: t.drop i

/-- The source's first separator loop: re-insert each recorded
right-to-left offset into the (growing) rendered text, skipping offsets
that fall outside the current text. -/
def restoreSeps : List Nat → List Char → List Char
  | [], t => t
  | r :: rs, t =>
    restoreSeps rs
      (if r < t.length then
        (if t.length - r > 0 then insertAt (t.length - r) SEP t else t)
       else t)

/-- As `restoreSeps`, additionally returning the list of offsets that
were actually restored (used to state the separator-redistribution
contract in terms of restored separators). -/
def restoreSepsR : List Nat → List Char → List Char × List Nat
  | [], t => (t, [])
  | r :: rs, t =>
    if r < t.length then
      let p :=
        restoreSepsR rs
          (if t.length - r > 0 then insertAt (t.length - r) SEP t else t)
      (p.1, r :: p.2)
    else restoreSepsR rs t

/-- The source's `while index - prefix_length > spacing` loop.  The fuel
bounds the number of iterations; starting it at `idx` it can only be
exhausted mid-loop when `spacing = 0`, which is exactly the case in
which the Rust loop never terminates (`none` result). -/
def redistAux (spacing pfxLen : Nat) : Nat → Nat → List Char → Option (List Char)
  | 0, idx, t => if idx - pfxLen > spacing then none else some t
  | fuel + 1, idx, t =>
    if idx - pfxLen > spacing then
      if spacing = 0 then none
      else redistAux spacing pfxLen fuel (idx - spacing) (insertAt (idx - spacing) SEP t)
    else some t

/-- Outcome of one `increment` invocation. -/
inductive RunRes
  | ok (t : List Char)
  | rejected
  | panicked
  | looped
deriving DecidableEq, Repr

/-- The spacing expression of the source (lines 140-143): the slice
pattern `[.., b, a]` picks the LAST two recorded offsets, i.e. the two
leftmost separators of the token; with fewer than two offsets it is the
first recorded offset. -/
def sepSpacing (rtl : List Nat) : Nat :=
  match rtl.reverse with
  | a :: b :: _ => a - b - 1
  | _ => rtl.headD 0

/-- The separator phase of the source (lines 128-152): restore recorded
separators, then, if the text grew past the original length and at least
one separator was recorded, insert extra separators walking left from
the first separator at the computed spacing. -/
def sepPhase (s : List Char) (pfxLen : Nat) (rtl : List Nat) (rendered : List Char) :
    RunRes :=
  if (restoreSeps rtl rendered).length > s.length ∧ rtl ≠ [] then
    match (restoreSeps rtl rendered).findIdx? (· == SEP) with
    | some idx =>
      match redistAux (sepSpacing rtl) pfxLen idx idx (restoreSeps rtl rendered) with
      | some t2 => .ok t2
      | none => .looped
    | none => .ok (restoreSeps rtl rendered)
  else .ok (restoreSeps rtl rendered)

/-- `number.starts_with('0') || number.starts_with("-0")`. -/
def startsZero (w : List Char) : Bool :=
  match w with
  | [] => false
  | c :: rest =>
    if c = '0' then true
    else if c = '-' then
      match rest with
      | c2 :: _ => c2 = '0'
      | [] => false
    else false

/-- The decimal target-width expression of the source (lines 85-89), on
the mathematical integers: `usize` underflow shows up as a negative
value. -/
def decFmtLen (wordLen : Nat) (oldNeg newNeg : Bool) (sepCount : Nat) : Int :=
  (match oldNeg, newNeg with
   | true, false => (wordLen : Int) - 1
   | false, true => (wordLen : Int) + 1
   | _, _ => (wordLen : Int)) - (sepCount : Int)

def lowerCount (s : List Char) : Nat :=
  (s.filter (fun c => 'a' ≤ c ∧ c ≤ 'z')).length

def upperCount (s : List Char) : Nat :=
  (s.filter (fun c => 'A' ≤ c ∧ c ≤ 'Z')).length

/-- Intermediate outcome of the parse/arithmetic/render part of
`increment` (everything before the separator phase). -/
inductive Mid
  | reject
  | panic
  | render (pfxLen : Nat) (rtl : List Nat) (text : List Char)
deriving DecidableEq, Repr

/-- Line 102 of the source: floor-clamp at zero after the saturating
add in the non-decimal branch. -/
def clampFloor (v : Int) : Int := if v < 0 then 0 else v

/-- The decimal renderer (lines 91-95): zero-pad the signed value to the
target width when the original digit string starts with `0` or `-0`,
otherwise render minimally. -/
def decRender (word : List Char) (fl : Nat) (v : Int) : List Char :=
  if startsZero word then fmtSignedDec fl v else fmtMinDec v

/-- The non-decimal renderer (lines 106-124): zero-pad the rendering of
the clamped value to the target width; hexadecimal picks the digit case
by comparing the letter-case counts of the original digit string. -/
def nonDecDigits (b : Base) (number : List Char) (fl : Nat) (v : Int) : List Char :=
  match b with
  | .base16 =>
    if upperCount number > lowerCount number then
      padZeros fl (natToStr 16 true v.toNat)
    else padZeros fl (natToStr 16 false v.toNat)
  | _ => padZeros fl (natToStr b.radix false v.toNat)

/-- Lines 29-126 of the source: structural checks, pattern recognition,
separator recording, parsing, saturating arithmetic and rendering of
`prefix + digits`. -/
def arithPhase (s : List Char) (amount : Int) : Mid :=
  if s = [] ∨ s.head? = some SEP ∨ s.getLast? = some SEP then .reject
  else
    match (findPattern s).base with
    | .base10 =>
      match i128FromStrRadix 10 (stripSeps s) with
      | none => .reject
      | some value =>
        if decFmtLen (stripSeps s).length (value < 0) (i128SatAdd value amount < 0)
            (sepRtlIdxs s).length < 0 then .panic
        else
          .render (findPattern s).pfx.length (sepRtlIdxs s)
            (decRender (stripSeps s)
              (decFmtLen (stripSeps s).length (value < 0) (i128SatAdd value amount < 0)
                (sepRtlIdxs s).length).toNat
              (i128SatAdd value amount))
    | b =>
      match u128FromStrRadix b.radix ((stripSeps s).drop (findPattern s).pfx.length) with
      | none => .reject
      | some value =>
        .render (findPattern s).pfx.length (sepRtlIdxs s)
          ((findPattern s).pfx ++
            nonDecDigits b ((stripSeps s).drop (findPattern s).pfx.length)
              (s.length - (findPattern s).pfx.length - (sepRtlIdxs s).length)
              (clampFloor (i128SatAdd (u128AsI128 value) amount)))

/-- The full `increment` operation of the source. -/
def increment (s : List Char) (amount : Int) : RunRes :=
  match arithPhase s amount with
  | .reject => .rejected
  | .panic => .panicked
  | .render pl rtl t => sepPhase s pl rtl t

/-- Convenience conversion for concrete tokens. -/
def cs (s : String) : List Char := s.data

/-! ### Specification-side definitions

These definitions are written from the specification's (or a claim's)
wording, to be compared against the source-derived definitions above. -/

/-- The ordered matcher list of the specification's Pattern Recognizer
contract: hexadecimal, explicit decimal, octal, binary, in priority
order. -/
def patternList : List (Base × (List Char → Option (List Char))) :=
  [(.base16, hexMatch), (.base10, decMatch), (.base8, octMatch), (.base2, binMatch)]

/-- Specification-side classification: the first matcher of the
priority list that fires wins; otherwise decimal with an empty marker. -/
def classifySpec (s : List Char) : NumberPattern :=
  match patternList.findSome? (fun bm => (bm.2 s).map (fun p => NumberPattern.mk bm.1 p)) with
  | some pat => pat
  | none => ⟨.base10, []⟩

/-- Specification-side decimal target width: original digit length,
minus one on a negative-to-non-negative sign change, plus one on a
non-negative-to-negative sign change, then minus the separator count. -/
def decTargetSpec (wordLen : Nat) (oldNeg newNeg : Bool) (seps : Nat) : Int :=
  (wordLen : Int) +
    (if oldNeg = true ∧ newNeg = false then -1
     else if oldNeg = false ∧ newNeg = true then 1
     else 0) -
    (seps : Int)

/-- Count of lowercase hexadecimal letter digits `a`-`f` (the
specification's case-policy counts only alphabetic hex digits). -/
def lowerCountAF (s : List Char) : Nat :=
  (s.filter (fun c => 'a' ≤ c ∧ c ≤ 'f')).length

/-- Count of uppercase hexadecimal letter digits `A`-`F`. -/
def upperCountAF (s : List Char) : Nat :=
  (s.filter (fun c => 'A' ≤ c ∧ c ≤ 'F')).length

/-- Whether the magnitude parse of the pipeline succeeds: the decimal
branch feeds the whole separator-stripped token to the signed 128-bit
parser, the other branches feed the marker-stripped digits to the
unsigned 128-bit parser. -/
def magParse (s : List Char) : Bool :=
  match (findPattern s).base with
  | .base10 => (i128FromStrRadix 10 (stripSeps s)).isSome
  | b => (u128FromStrRadix b.radix ((stripSeps s).drop (findPattern s).pfx.length)).isSome

/-- Redistribution spacing computed from the RESTORED offsets, as the
amended claim C5 words it: the gap between the two leftmost restored
separators when at least two exist, otherwise the single restored
separator's right-to-left offset. -/
def sepSpacingAmended (restored : List Nat) : Nat :=
  match restored.reverse with
  | a :: b :: _ => a - b - 1
  | [a] => a
  | [] => 0

/-- Separator phase following the amended claim C5: restore the
recorded offsets (skipping out-of-bounds ones), and on growth insert
extra separators at the spacing computed from the restored offsets. -/
def sepPhaseAmended (s : List Char) (pfxLen : Nat) (rtl : List Nat) (rendered : List Char) :
    RunRes :=
  if (restoreSepsR rtl rendered).1.length > s.length ∧ rtl ≠ [] then
    match (restoreSepsR rtl rendered).1.findIdx? (· == SEP) with
    | some idx =>
      match redistAux (sepSpacingAmended (restoreSepsR rtl rendered).2) pfxLen idx idx
          (restoreSepsR rtl rendered).1 with
      | some t2 => .ok t2
      | none => .looped
    | none => .ok (restoreSepsR rtl rendered).1
  else .ok (restoreSepsR rtl rendered).1

/-- The increment pipeline with the amended-claim separator phase. -/
def incrementAmended (s : List Char) (amount : Int) : RunRes :=
  match arithPhase s amount with
  | .reject => .rejected
  | .panic => .panicked
  | .render pl rtl t => sepPhaseAmended s pl rtl t

/-- Redistribution spacing exactly as claim C5 states it: for a single
restored separator, its distance from the START of the digit run of the
original token (left-to-right position minus marker length), instead of
its right-to-left offset. -/
def sepSpacingClaim (sLen pfxLen : Nat) (restored : List Nat) : Nat :=
  match restored.reverse with
  | a :: b :: _ => a - b - 1
  | [a] => sLen - 1 - a - pfxLen
  | [] => 0

/-- Separator phase following claim C5 as stated. -/
def sepPhaseClaim5 (s : List Char) (pfxLen : Nat) (rtl : List Nat) (rendered : List Char) :
    RunRes :=
  if (restoreSepsR rtl rendered).1.length > s.length ∧ rtl ≠ [] then
    match (restoreSepsR rtl rendered).1.findIdx? (· == SEP) with
    | some idx =>
      match redistAux (sepSpacingClaim s.length pfxLen (restoreSepsR rtl rendered).2)
          pfxLen idx idx (restoreSepsR rtl rendered).1 with
      | some t2 => .ok t2
      | none => .looped
    | none => .ok (restoreSepsR rtl rendered).1
  else .ok (restoreSepsR rtl rendered).1

/-- The increment pipeline with claim C5's separator phase. -/
def incrementClaim5 (s : List Char) (amount : Int) : RunRes :=
  match arithPhase s amount with
  | .reject => .rejected
  | .panic => .panicked
  | .render pl rtl t => sepPhaseClaim5 s pl rtl t

/-- Lexical marker of each base, for stating canonical-token facts. -/
def basePfx : Base → List Char
  | .base2 => ['0', 'b']
  | .base8 => ['0', 'o']
  | .base10 => []
  | .base16 => ['0', 'x']

/-- A canonical digit character for radix `r`: a valid digit whose
lowercase rendering is the character itself. -/
def isCanonDigit (r : Nat) (c : Char) : Bool :=
  match charVal c with
  | some d => decide (d < r) && (digitChar false d == c)
  | none => false

/-! ### Basic lemmas about the digit parsers -/

lemma digitsValGo_none_of_bad {r : Nat} {l : List Char} {c : Char}
    (hc : charVal c = none) (hm : c ∈ l) : ∀ acc, digitsValGo r acc l = none := by
  induction l with
  | nil => cases hm
  | cons a tl ih =>
    intro acc
    rcases List.mem_cons.mp hm with h | h
    · subst h
      simp [digitsValGo, hc]
    · simp only [digitsValGo]
      cases hca : charVal a with
      | none => rfl
      | some d =>
        by_cases hd : d < r
        · simp [hd, ih h]
        · simp [hd]

lemma digitsVal?_none_of_bad {r : Nat} {l : List Char} {c : Char}
    (hc : charVal c = none) (hm : c ∈ l) : digitsVal? r l = none := by
  cases l with
  | nil => cases hm
  | cons a tl => exact digitsValGo_none_of_bad hc hm 0

lemma i128FromStrRadix_none_of_apos {r : Nat} {w : List Char} (hm : '\'' ∈ w) :
    i128FromStrRadix r w = none := by
  cases w with
  | nil => cases hm
  | cons c rest =>
    by_cases h1 : c = '+'
    · subst h1
      have hr : '\'' ∈ rest := by
        rcases List.mem_cons.mp hm with h | h
        · exact absurd h (by decide)
        · exact h
      simp [i128FromStrRadix, digitsVal?_none_of_bad (c := '\'') rfl hr]
    · by_cases h2 : c = '-'
      · subst h2
        have hr : '\'' ∈ rest := by
          rcases List.mem_cons.mp hm with h | h
          · exact absurd h (by decide)
          · exact h
        simp [i128FromStrRadix, h1, digitsVal?_none_of_bad (c := '\'') rfl hr]
      · simp [i128FromStrRadix, h1, h2, digitsVal?_none_of_bad (c := '\'') rfl hm]

/-! ### The separator phase never rejects -/

lemma sepPhase_ne_rejected (s : List Char) (pl : Nat) (rtl : List Nat)
    (rendered : List Char) : sepPhase s pl rtl rendered ≠ .rejected := by
  unfold sepPhase
  split
  · cases (restoreSeps rtl rendered).findIdx? (· == SEP) with
    | none => simp
    | some idx =>
      simp only []
      cases redistAux (sepSpacing rtl) pl idx idx (restoreSeps rtl rendered) with
      | none => simp
      | some t2 => simp
  · simp

set_option maxRecDepth 8000

/-! ### Claim C9: pattern classification -/

/-- Claim C9 counterexample: the matchers run on the RAW token, not on
the separator-stripped token.  The stripped form of `0_x10` starts with
the hexadecimal marker, yet the pipeline classifies the raw token as
bare decimal (empty marker) and then rejects it. -/
theorem c9_counterexample :
    increment (cs "0_x10") 1 = .rejected ∧
    stripSeps (cs "0_x10") = cs "0x10" ∧
    findPattern (cs "0x10") = ⟨.base16, cs "0x"⟩ ∧
    findPattern (cs "0_x10") = ⟨.base10, []⟩ := by
  refine ⟨by decide, by decide, by decide, by decide⟩

/-- Claim C9 (amended): classification matches the fixed-priority
pattern list against the RAW token (separators included): the first
matcher whose pattern occurs at the start wins, its matched text is the
marker, and with no match the base defaults to decimal with an empty
marker. -/
theorem c9_amended_priority_classification :
    ∀ s : List Char, findPattern s = classifySpec s := by
  intro s
  cases h1 : hexMatch s with
  | some p => simp [findPattern, classifySpec, patternList, List.findSome?, h1]
  | none =>
    cases h2 : decMatch s with
    | some p => simp [findPattern, classifySpec, patternList, List.findSome?, h1, h2]
    | none =>
      cases h3 : octMatch s with
      | some p =>
        simp [findPattern, classifySpec, patternList, List.findSome?, h1, h2, h3]
      | none =>
        cases h4 : binMatch s with
        | some p =>
          simp [findPattern, classifySpec, patternList, List.findSome?, h1, h2, h3, h4]
        | none =>
          simp [findPattern, classifySpec, patternList, List.findSome?, h1, h2, h3, h4]

/-! ### Claim C7: decimal width policy -/

/-- Claim C7: the decimal target width is the original digit length,
minus one on a negative-to-non-negative sign change, plus one on the
opposite change, then minus the separator count; and the sign-flip
examples from the specification evaluate as stated. -/
theorem c7_decimal_width_policy :
    (∀ (w : Nat) (oldNeg newNeg : Bool) (seps : Nat),
        decFmtLen w oldNeg newNeg seps = decTargetSpec w oldNeg newNeg seps) ∧
    increment (cs "-1") 1 = .ok (cs "0") ∧
    increment (cs "-1") 2 = .ok (cs "1") := by
  refine ⟨?_, by decide, by decide⟩
  intro w o n seps
  cases o <;> cases n
  all_goals simp [decFmtLen, decTargetSpec]
  all_goals omega

/-! ### Claim C1: saturation wraps for magnitudes of 2^127 and above -/

/-- Claim C1 evaluation at the failing input: the parsed magnitude
`2^128 - 1` is wrapped to `-1` by the `u128`-to-`i128` cast before the
saturating add, so adding `1` renders zero instead of clamping at the
representable maximum. -/
theorem c1_saturation_wrap_eval :
    increment (cs "0xffffffffffffffffffffffffffffffff") 1 =
      .ok (cs "0x00000000000000000000000000000000") ∧
    u128FromStrRadix 16 (cs "ffffffffffffffffffffffffffffffff") = some (2 ^ 128 - 1) ∧
    u128AsI128 (2 ^ 128 - 1) = -1 := by
  refine ⟨by decide, by decide, by decide⟩

/-! ### Claim C3: the extra-separator loop need not terminate -/

/-- Claim C3 evaluation at the failing input: two adjacent separators
produce spacing 0, and the extra-separator loop of the source then
inserts a separator at the same index forever; the embedding reports
the divergence as `looped`. -/
theorem c3_nontermination_eval :
    increment (cs "9__9") 1 = .looped ∧
    sepRtlIdxs (cs "9__9") = [1, 2] ∧
    sepSpacing [1, 2] = 0 := by
  refine ⟨by decide, by decide, by decide⟩

/-! ### Claim C2: the decimal branch does not strip the marker -/

/-- Claim C2 counterexample: an explicit-decimal token is rejected, not
incremented. -/
theorem c2_counterexample : increment (cs "16'd100") 1 = .rejected := by decide

lemma quoteMatch_decomp {letter : Char} {s p : List Char}
    (h : quoteMatch letter s = some p) :
    p = s.takeWhile isDecDigit ++ ['\'', letter] ∧
    s = p ++ (s.dropWhile isDecDigit).drop 2 := by
  unfold quoteMatch at h
  cases hdw : s.dropWhile isDecDigit with
  | nil => rw [hdw] at h; cases h
  | cons q tl =>
    cases tl with
    | nil => rw [hdw] at h; cases h
    | cons l tl2 =>
      rw [hdw] at h
      dsimp only at h
      by_cases hq : q = '\'' ∧ l = letter
      · obtain ⟨hq1, hq2⟩ := hq
        subst hq1
        subst hq2
        rw [if_pos ⟨rfl, rfl⟩] at h
        have hp := Option.some.inj h
        constructor
        · exact hp.symm
        · conv_lhs => rw [← List.takeWhile_append_dropWhile (p := isDecDigit) (l := s)]
          rw [hdw, ← hp]
          simp
      · rw [if_neg hq] at h
        cases h

lemma quoteMatch_noSep {letter : Char} (hl : letter ≠ SEP) {s p : List Char}
    (h : quoteMatch letter s = some p) :
    (∃ rest, s = p ++ rest) ∧ ∀ c ∈ p, c ≠ SEP := by
  obtain ⟨hp, hs⟩ := quoteMatch_decomp h
  refine ⟨⟨(s.dropWhile isDecDigit).drop 2, hs⟩, ?_⟩
  intro c hc
  rw [hp] at hc
  rcases List.mem_append.mp hc with h1 | h2
  · have hd := List.mem_takeWhile_imp h1
    intro hcon
    subst hcon
    exact absurd hd (by decide)
  · rcases List.mem_cons.mp h2 with h3 | h3
    · subst h3; decide
    · rcases List.mem_cons.mp h3 with h4 | h4
      · subst h4; exact hl
      · cases h4

lemma hexMatch_decomp {s p : List Char} (h : hexMatch s = some p) :
    (∃ rest, s = p ++ rest) ∧ ∀ c ∈ p, c ≠ SEP := by
  cases s with
  | nil => exact quoteMatch_noSep (show ('h' : Char) ≠ SEP by decide) h
  | cons c1 t1 =>
    cases t1 with
    | nil => exact quoteMatch_noSep (show ('h' : Char) ≠ SEP by decide) h
    | cons c2 t2 =>
      unfold hexMatch at h
      dsimp only at h
      by_cases hc : c1 = '0' ∧ c2 = 'x'
      · obtain ⟨h1, h2⟩ := hc
        subst h1
        subst h2
        rw [if_pos ⟨rfl, rfl⟩] at h
        have hp := Option.some.inj h
        refine ⟨⟨t2, by rw [← hp]; rfl⟩, ?_⟩
        rw [← hp]
        intro c hcm
        fin_cases hcm <;> decide
      · rw [if_neg hc] at h
        exact quoteMatch_noSep (show ('h' : Char) ≠ SEP by decide) h

lemma octMatch_decomp {s p : List Char} (h : octMatch s = some p) :
    (∃ rest, s = p ++ rest) ∧ ∀ c ∈ p, c ≠ SEP := by
  cases s with
  | nil => cases h
  | cons c1 t1 =>
    cases t1 with
    | nil => cases h
    | cons c2 t2 =>
      unfold octMatch at h
      dsimp only at h
      by_cases hc : c1 = '0' ∧ c2 = 'o'
      · obtain ⟨h1, h2⟩ := hc
        subst h1
        subst h2
        rw [if_pos ⟨rfl, rfl⟩] at h
        have hp := Option.some.inj h
        refine ⟨⟨t2, by rw [← hp]; rfl⟩, ?_⟩
        rw [← hp]
        intro c hcm
        fin_cases hcm <;> decide
      · rw [if_neg hc] at h
        cases h

lemma binMatch_decomp {s p : List Char} (h : binMatch s = some p) :
    (∃ rest, s = p ++ rest) ∧ ∀ c ∈ p, c ≠ SEP := by
  cases s with
  | nil => exact quoteMatch_noSep (show ('b' : Char) ≠ SEP by decide) h
  | cons c1 t1 =>
    cases t1 with
    | nil => exact quoteMatch_noSep (show ('b' : Char) ≠ SEP by decide) h
    | cons c2 t2 =>
      unfold binMatch at h
      dsimp only at h
      by_cases hc : c1 = '0' ∧ c2 = 'b'
      · obtain ⟨h1, h2⟩ := hc
        subst h1
        subst h2
        rw [if_pos ⟨rfl, rfl⟩] at h
        have hp := Option.some.inj h
        refine ⟨⟨t2, by rw [← hp]; rfl⟩, ?_⟩
        rw [← hp]
        intro c hcm
        fin_cases hcm <;> decide
      · rw [if_neg hc] at h
        exact quoteMatch_noSep (show ('b' : Char) ≠ SEP by decide) h

lemma findPattern_pfx_decomp (s : List Char) :
    (∃ rest, s = (findPattern s).pfx ++ rest) ∧
      ∀ c ∈ (findPattern s).pfx, c ≠ SEP := by
  cases h1 : hexMatch s with
  | some p =>
    have hfp : findPattern s = ⟨.base16, p⟩ := by simp [findPattern, h1]
    rw [hfp]
    exact hexMatch_decomp h1
  | none =>
    cases h2 : decMatch s with
    | some p =>
      have hfp : findPattern s = ⟨.base10, p⟩ := by simp [findPattern, h1, h2]
      rw [hfp]
      exact quoteMatch_noSep (show ('d' : Char) ≠ SEP by decide) h2
    | none =>
      cases h3 : octMatch s with
      | some p =>
        have hfp : findPattern s = ⟨.base8, p⟩ := by simp [findPattern, h1, h2, h3]
        rw [hfp]
        exact octMatch_decomp h3
      | none =>
        cases h4 : binMatch s with
        | some p =>
          have hfp : findPattern s = ⟨.base2, p⟩ := by simp [findPattern, h1, h2, h3, h4]
          rw [hfp]
          exact binMatch_decomp h4
        | none =>
          have hfp : findPattern s = ⟨.base10, []⟩ := by simp [findPattern, h1, h2, h3, h4]
          rw [hfp]
          exact ⟨⟨s, rfl⟩, by simp⟩

lemma stripSeps_pfx_decomp (s : List Char) :
    ∃ rest, s = (findPattern s).pfx ++ rest ∧
      stripSeps s = (findPattern s).pfx ++ stripSeps rest ∧
      (stripSeps s).drop (findPattern s).pfx.length = stripSeps rest := by
  obtain ⟨⟨rest, hrest⟩, hns⟩ := findPattern_pfx_decomp s
  have hsplit : stripSeps s = (findPattern s).pfx ++ stripSeps rest := by
    conv_lhs => rw [hrest]
    unfold stripSeps
    rw [List.filter_append]
    congr 1
    exact List.filter_eq_self.mpr (fun a ha => by simpa using hns a ha)
  refine ⟨rest, hrest, hsplit, ?_⟩
  rw [hsplit, List.drop_left]

/-- Claim C2 (amended): the recognized marker is a genuine initial
segment of the raw token, contains no separators, and therefore
survives separator-stripping as the initial segment of the stripped
word; the non-decimal branches drop exactly that marker and parse the
remaining pure base-N digits in the recognized base (so width-quoted
and `0x`-style tokens increment as expected).  The decimal branch,
however, parses the whole unstripped word, so every token recognized
with a non-empty explicit-decimal marker (`'d` with optional width)
fails to parse and is rejected rather than incremented. -/
theorem c2_amended_dec_marker_rejected :
    (∀ s : List Char, ∃ rest, s = (findPattern s).pfx ++ rest ∧
        stripSeps s = (findPattern s).pfx ++ stripSeps rest ∧
        (stripSeps s).drop (findPattern s).pfx.length = stripSeps rest) ∧
    increment (cs "16'h100") 1 = .ok (cs "16'h101") ∧
    increment (cs "0x0ff") 1 = .ok (cs "0x100") ∧
    (∀ (s : List Char) (a : Int),
        (findPattern s).base = .base10 → (findPattern s).pfx ≠ [] →
        increment s a = .rejected) := by
  refine ⟨stripSeps_pfx_decomp, by decide, by decide, ?_⟩
  intro s a hb hp
  have hdm : ∃ p, decMatch s = some p := by
    cases h1 : hexMatch s with
    | some p => simp [findPattern, h1] at hb
    | none =>
      cases h2 : decMatch s with
      | some p => exact ⟨p, rfl⟩
      | none =>
        cases h3 : octMatch s with
        | some p => simp [findPattern, h1, h2, h3] at hb
        | none =>
          cases h4 : binMatch s with
          | some p => simp [findPattern, h1, h2, h3, h4] at hb
          | none => simp [findPattern, h1, h2, h3, h4] at hp
  obtain ⟨p, hp2⟩ := hdm
  have hmem : '\'' ∈ s := by
    unfold decMatch quoteMatch at hp2
    cases hdw : s.dropWhile isDecDigit with
    | nil => rw [hdw] at hp2; cases hp2
    | cons q tl =>
      cases tl with
      | nil => rw [hdw] at hp2; cases hp2
      | cons l tl2 =>
        rw [hdw] at hp2
        by_cases hq : q = '\'' ∧ l = 'd'
        · have hmem2 : '\'' ∈ s.dropWhile isDecDigit := by
            rw [hdw, ← hq.1]
            exact List.mem_cons_self _ _
          rw [← List.takeWhile_append_dropWhile (p := isDecDigit) (l := s)]
          exact List.mem_append_right _ hmem2
        · simp [hq] at hp2
  have hw : '\'' ∈ stripSeps s := List.mem_filter.mpr ⟨hmem, by decide⟩
  have hparse := i128FromStrRadix_none_of_apos (r := 10) hw
  by_cases hg : s = [] ∨ s.head? = some SEP ∨ s.getLast? = some SEP
  · simp [increment, arithPhase, hg]
  · simp [increment, arithPhase, hg, hb, hparse]

/-- Witness for `c2_amended_dec_marker_rejected` at a concrete token. -/
theorem c2_witness :
    (findPattern (cs "8'd5")).base = .base10 ∧ (findPattern (cs "8'd5")).pfx ≠ [] ∧
    increment (cs "8'd5") 1 = .rejected :=
  ⟨by decide, by decide,
    c2_amended_dec_marker_rejected.2.2.2 (cs "8'd5") 1 (by decide) (by decide)⟩

/-! ### Claim C4: rejection characterization -/

/-- Claim C4 counterexample: a token whose digits are all valid
hexadecimal digits is nevertheless rejected, because its magnitude
(`2^128`) exceeds the 128-bit range of the parser. -/
theorem c4_counterexample :
    increment (cs "0x100000000000000000000000000000000") 1 = .rejected ∧
    (cs "100000000000000000000000000000000").all (fun c => isValidDigit 16 c) = true := by
  refine ⟨by decide, by decide⟩

/-- Claim C4 (amended): the pipeline rejects exactly when the token is
empty, starts or ends with the separator, or the magnitude parse fails
(invalid digit for the base, empty digit sequence, value outside the
128-bit range, or a minus sign with nonzero magnitude in a non-decimal
base).  Crashing inputs (width underflow, zero-spacing loop) are
neither rejections nor replacements. -/
theorem c4_amended_rejected_iff :
    ∀ (s : List Char) (a : Int),
      increment s a = .rejected ↔
        (s = [] ∨ s.head? = some SEP ∨ s.getLast? = some SEP ∨ magParse s = false) := by
  intro s a
  by_cases hg : s = [] ∨ s.head? = some SEP ∨ s.getLast? = some SEP
  · simp only [increment, arithPhase, if_pos hg]
    tauto
  · cases hb : (findPattern s).base with
    | base10 =>
      cases hparse : i128FromStrRadix 10 (stripSeps s) with
      | none =>
        simp [increment, arithPhase, hg, hb, hparse, magParse]
      | some v =>
        by_cases hfl : decFmtLen (stripSeps s).length (v < 0) (i128SatAdd v a < 0)
            (sepRtlIdxs s).length < 0
        · simp [increment, arithPhase, hg, hb, hparse, hfl, magParse]
        · simp [increment, arithPhase, hg, hb, hparse, hfl, magParse,
            sepPhase_ne_rejected]
    | base16 =>
      cases hparse : u128FromStrRadix 16 ((stripSeps s).drop (findPattern s).pfx.length) with
      | none =>
        simp [increment, arithPhase, hg, hb, hparse, magParse, Base.radix]
      | some v =>
        simp [increment, arithPhase, hg, hb, hparse, magParse, Base.radix,
          sepPhase_ne_rejected]
    | base8 =>
      cases hparse : u128FromStrRadix 8 ((stripSeps s).drop (findPattern s).pfx.length) with
      | none =>
        simp [increment, arithPhase, hg, hb, hparse, magParse, Base.radix]
      | some v =>
        simp [increment, arithPhase, hg, hb, hparse, magParse, Base.radix,
          sepPhase_ne_rejected]
    | base2 =>
      cases hparse : u128FromStrRadix 2 ((stripSeps s).drop (findPattern s).pfx.length) with
      | none =>
        simp [increment, arithPhase, hg, hb, hparse, magParse, Base.radix]
      | some v =>
        simp [increment, arithPhase, hg, hb, hparse, magParse, Base.radix,
          sepPhase_ne_rejected]

/-! ### Claim C8: hexadecimal case policy -/

lemma charVal_cases {c : Char} {d : Nat} (hv : charVal c = some d) :
    c ∈ ['0', 'A', '1', 'B', '2', 'C', '3', 'D', '4', 'E',
         '5', 'F', '6', 'a', '7', 'b', '8', 'c', '9', 'd', 'e', 'f'] := by
  by_cases h0 : c = '0'
  · subst h0; decide
  by_cases h1 : c = '1'
  · subst h1; decide
  by_cases h2 : c = '2'
  · subst h2; decide
  by_cases h3 : c = '3'
  · subst h3; decide
  by_cases h4 : c = '4'
  · subst h4; decide
  by_cases h5 : c = '5'
  · subst h5; decide
  by_cases h6 : c = '6'
  · subst h6; decide
  by_cases h7 : c = '7'
  · subst h7; decide
  by_cases h8 : c = '8'
  · subst h8; decide
  by_cases h9 : c = '9'
  · subst h9; decide
  by_cases h10 : c = 'a'
  · subst h10; decide
  by_cases h11 : c = 'b'
  · subst h11; decide
  by_cases h12 : c = 'c'
  · subst h12; decide
  by_cases h13 : c = 'd'
  · subst h13; decide
  by_cases h14 : c = 'e'
  · subst h14; decide
  by_cases h15 : c = 'f'
  · subst h15; decide
  by_cases h16 : c = 'A'
  · subst h16; decide
  by_cases h17 : c = 'B'
  · subst h17; decide
  by_cases h18 : c = 'C'
  · subst h18; decide
  by_cases h19 : c = 'D'
  · subst h19; decide
  by_cases h20 : c = 'E'
  · subst h20; decide
  by_cases h21 : c = 'F'
  · subst h21; decide
  simp [charVal, h0, h1, h2, h3, h4, h5, h6, h7, h8, h9, h10, h11, h12, h13, h14,
    h15, h16, h17, h18, h19, h20, h21] at hv

lemma case_filter_agree {c : Char}
    (h : isValidDigit 16 c = true ∨ c = '+' ∨ c = '-') :
    (decide ('a' ≤ c ∧ c ≤ 'z') = decide ('a' ≤ c ∧ c ≤ 'f')) ∧
    (decide ('A' ≤ c ∧ c ≤ 'Z') = decide ('A' ≤ c ∧ c ≤ 'F')) := by
  rcases h with h | h | h
  · cases hv : charVal c with
    | none => unfold isValidDigit at h; rw [hv] at h; simp at h
    | some d =>
      have hmem := charVal_cases hv
      fin_cases hmem <;> exact ⟨by decide, by decide⟩
  · subst h; exact ⟨by decide, by decide⟩
  · subst h; exact ⟨by decide, by decide⟩

lemma counts_agree {ds : List Char}
    (h : ∀ c ∈ ds, isValidDigit 16 c = true ∨ c = '+' ∨ c = '-') :
    lowerCount ds = lowerCountAF ds ∧ upperCount ds = upperCountAF ds := by
  constructor
  · unfold lowerCount lowerCountAF
    congr 1
    exact List.filter_congr fun c hc => (case_filter_agree (h c hc)).1
  · unfold upperCount upperCountAF
    congr 1
    exact List.filter_congr fun c hc => (case_filter_agree (h c hc)).2

/-- Claim C8: on digit strings made of valid hexadecimal digits and
sign characters (which is all the hexadecimal branch ever renders), the
source's count of ALL ascii letters coincides with the specification's
count of the letter digits `a`-`f`/`A`-`F`; uppercase rendering is
chosen exactly when the uppercase count strictly exceeds the lowercase
count, as the case-preservation examples show. -/
theorem c8_hex_case_policy :
    (∀ ds : List Char, (∀ c ∈ ds, isValidDigit 16 c = true ∨ c = '+' ∨ c = '-') →
      (upperCount ds > lowerCount ds ↔ upperCountAF ds > lowerCountAF ds)) ∧
    increment (cs "0xABCDEF1234567890") 1 = .ok (cs "0xABCDEF1234567891") ∧
    increment (cs "0xabcdef1234567890") 1 = .ok (cs "0xabcdef1234567891") := by
  refine ⟨?_, by decide, by decide⟩
  intro ds h
  rw [(counts_agree h).1, (counts_agree h).2]

/-- Witness for `c8_hex_case_policy` at a concrete digit string. -/
theorem c8_witness :
    (∀ c ∈ cs "aB3", isValidDigit 16 c = true ∨ c = '+' ∨ c = '-') ∧
    (upperCount (cs "aB3") > lowerCount (cs "aB3") ↔
      upperCountAF (cs "aB3") > lowerCountAF (cs "aB3")) :=
  ⟨by decide, c8_hex_case_policy.1 (cs "aB3") (by decide)⟩

/-! ### Digits machinery: bridge to Mathlib's Nat.digits -/

lemma toDigitsRevGo_eq {b : Nat} (hb : 2 ≤ b) :
    ∀ fuel n, n ≤ fuel → toDigitsRevGo b fuel n = Nat.digits b n := by
  intro fuel
  induction fuel with
  | zero =>
    intro n hn
    interval_cases n
    simp [toDigitsRevGo]
  | succ f ih =>
    intro n hn
    by_cases h0 : n = 0
    · subst h0; simp [toDigitsRevGo]
    · have hlt : n / b < n := Nat.div_lt_self (Nat.pos_of_ne_zero h0) (by omega)
      have hdef : Nat.digits b n = n % b :: Nat.digits b (n / b) :=
        Nat.digits_def' (by omega) (Nat.pos_of_ne_zero h0)
      rw [toDigitsRevGo, if_neg h0, hdef, ih (n / b) (by omega)]

lemma natToDigits_eq {b : Nat} (hb : 2 ≤ b) (n : Nat) :
    natToDigits b n = Nat.digits b n :=
  toDigitsRevGo_eq hb n n le_rfl

lemma digitsToNat_cons_zero (r : Nat) (t : List Char) :
    digitsToNat r ('0' :: t) = digitsToNat r t := by
  simp [digitsToNat, charVal]

lemma digitsToNat_eq_ofDigits (r : Nat) (s : List Char) :
    digitsToNat r s = Nat.ofDigits r ((s.map (fun c => (charVal c).getD 0)).reverse) := by
  induction s using List.reverseRecOn with
  | nil => simp [digitsToNat, Nat.ofDigits]
  | append_singleton l c ih =>
    have hfold : digitsToNat r (l ++ [c]) =
        digitsToNat r l * r + (charVal c).getD 0 := by
      simp [digitsToNat, List.foldl_append]
    rw [hfold, ih]
    simp [Nat.ofDigits_cons]
    ring

lemma charVal_digitChar {d : Nat} (hd : d < 16) (up : Bool) :
    charVal (digitChar up d) = some d := by
  interval_cases d <;> cases up <;> rfl

lemma digitsToNat_natToStr {b : Nat} (up : Bool) (v : Nat) (hb : 2 ≤ b)
    (hb16 : b ≤ 16) : digitsToNat b (natToStr b up v) = v := by
  unfold natToStr
  by_cases h0 : v = 0
  · subst h0; simp [digitsToNat, charVal]
  · rw [if_neg h0, digitsToNat_eq_ofDigits, List.map_map]
    have hmap : ((natToDigits b v).reverse.map ((fun c => (charVal c).getD 0) ∘ digitChar up)) =
        (natToDigits b v).reverse := by
      conv_rhs => rw [← List.map_id ((natToDigits b v).reverse)]
      apply List.map_congr_left
      intro d hd
      have hdb : d < b := by
        apply Nat.digits_lt_base (by omega)
        rw [← natToDigits_eq hb]
        exact List.mem_reverse.mp hd
      simp [charVal_digitChar (lt_of_lt_of_le hdb hb16) up]
    rw [hmap, List.reverse_reverse, natToDigits_eq hb, Nat.ofDigits_digits]

lemma digitsToNat_padZeros (r w : Nat) (l : List Char) :
    digitsToNat r (padZeros w l) = digitsToNat r l := by
  unfold padZeros
  generalize (w - l.length) = k
  induction k with
  | zero => simp
  | succ k ih => rw [List.replicate_succ, List.cons_append, digitsToNat_cons_zero, ih]

lemma padZeros_length (w : Nat) (l : List Char) :
    (padZeros w l).length = max w l.length := by
  simp [padZeros]
  omega

/-! ### Separator counting lemmas -/

lemma sepIdxsFrom_length : ∀ (l : List Char) (i : Nat),
    (sepIdxsFrom i l).length = (l.filter (· == SEP)).length := by
  intro l
  induction l with
  | nil => intro i; rfl
  | cons c t ih =>
    intro i
    by_cases hc : c = SEP
    · subst hc; simp [sepIdxsFrom, List.filter_cons, ih]
    · simp [sepIdxsFrom, hc, List.filter_cons, ih]

lemma filter_split_length (s : List Char) :
    (s.filter (· != SEP)).length + (s.filter (· == SEP)).length = s.length := by
  induction s with
  | nil => rfl
  | cons c t ih =>
    by_cases hc : c = SEP
    · subst hc; simp [List.filter_cons]; omega
    · simp [List.filter_cons, hc]; omega

lemma sepRtlIdxs_length (s : List Char) :
    (sepRtlIdxs s).length = (s.filter (· == SEP)).length := by
  unfold sepRtlIdxs
  rw [sepIdxsFrom_length, List.filter_reverse, List.length_reverse]

lemma stripSeps_length (s : List Char) :
    (stripSeps s).length = s.length - (sepRtlIdxs s).length := by
  have h1 := filter_split_length s
  have h2 := sepRtlIdxs_length s
  unfold stripSeps
  omega

/-! ### Claim C6: non-decimal target width -/

/-- Claim C6 counterexample: for `0x0000_0000` the claim's formula
(separator-stripped length, minus marker length, minus separator count)
gives 7, but the code pads to 8 digits (the raw length minus marker
length minus separator count); the natural digit count of the rendered
value is 1, so carry growth cannot explain the extra digit. -/
theorem c6_counterexample :
    increment (cs "0x0000_0000") (-1) = .ok (cs "0x0000_0000") ∧
    (stripSeps (cs "0x0000_0000")).length - 2 - (sepRtlIdxs (cs "0x0000_0000")).length = 7 ∧
    ((stripSeps (cs "0x0000_0000")).drop 2).length = 8 ∧
    (natToStr 16 false 0).length = 1 := by
  refine ⟨by decide, by decide, by decide, by decide⟩

/-- Claim C6 (amended): the non-decimal target digit-count is the raw
token length minus the marker length minus the separator count, which
equals the separator-stripped length minus the marker length; the
padding is a floor (the rendered length is the maximum of the target
and the natural digit count) and never truncates: the padded rendering
still parses back to the rendered value, and the all-ones carry example
grows by one digit. -/
theorem c6_amended_nondec_width :
    (∀ (s : List Char) (pl : Nat),
        s.length - pl - (sepRtlIdxs s).length = (stripSeps s).length - pl) ∧
    (∀ (w : Nat) (l : List Char), (padZeros w l).length = max w l.length) ∧
    (∀ (b : Nat) (up : Bool) (v : Nat) (w : Nat), 2 ≤ b → b ≤ 16 →
        digitsToNat b (padZeros w (natToStr b up v)) = v) ∧
    increment (cs "0xffffffffffffffff") 1 = .ok (cs "0x10000000000000000") := by
  refine ⟨?_, padZeros_length, ?_, by decide⟩
  · intro s pl
    have := stripSeps_length s
    omega
  · intro b up v w hb hb16
    rw [digitsToNat_padZeros, digitsToNat_natToStr up v hb hb16]

/-- Witness for `c6_amended_nondec_width` at concrete values. -/
theorem c6_witness :
    (2 ≤ 16 ∧ 16 ≤ 16) ∧ digitsToNat 16 (padZeros 3 (natToStr 16 false 255)) = 255 :=
  ⟨⟨by decide, by decide⟩,
    c6_amended_nondec_width.2.2.1 16 false 255 3 (by decide) (by decide)⟩

/-! ### Claim C5: separator restoration and redistribution -/

lemma insertAt_length {i : Nat} {c : Char} {l : List Char} (h : i ≤ l.length) :
    (insertAt i c l).length = l.length + 1 := by
  simp [insertAt]
  omega

lemma sepIdxsFrom_mem : ∀ (l : List Char) (i x : Nat), x ∈ sepIdxsFrom i l →
    i ≤ x ∧ x - i < l.length ∧ l[x - i]? = some SEP := by
  intro l
  induction l with
  | nil => intro i x hx; cases hx
  | cons c t ih =>
    intro i x hx
    unfold sepIdxsFrom at hx
    by_cases hc : c = SEP
    · rw [if_pos hc] at hx
      rcases List.mem_cons.mp hx with h | h
      · subst h
        refine ⟨le_rfl, by simp, ?_⟩
        simp [hc]
      · obtain ⟨h1, h2, h3⟩ := ih (i + 1) x h
        refine ⟨by omega, by simp; omega, ?_⟩
        have hxi : x - i = (x - (i + 1)) + 1 := by omega
        rw [hxi, List.getElem?_cons_succ]
        exact h3
    · rw [if_neg hc] at hx
      obtain ⟨h1, h2, h3⟩ := ih (i + 1) x hx
      refine ⟨by omega, by simp; omega, ?_⟩
      have hxi : x - i = (x - (i + 1)) + 1 := by omega
      rw [hxi, List.getElem?_cons_succ]
      exact h3

lemma sepIdxsFrom_pairwise : ∀ (l : List Char) (i : Nat),
    List.Pairwise (· < ·) (sepIdxsFrom i l) := by
  intro l
  induction l with
  | nil => intro i; exact List.Pairwise.nil
  | cons c t ih =>
    intro i
    unfold sepIdxsFrom
    by_cases hc : c = SEP
    · rw [if_pos hc]
      refine List.Pairwise.cons ?_ (ih (i + 1))
      intro x hx
      have := (sepIdxsFrom_mem t (i + 1) x hx).1
      omega
    · rw [if_neg hc]
      exact ih (i + 1)

lemma sepRtlIdxs_pairwise (s : List Char) : List.Pairwise (· < ·) (sepRtlIdxs s) :=
  sepIdxsFrom_pairwise s.reverse 0

lemma sepRtlIdxs_mem {s : List Char} {x : Nat} (hx : x ∈ sepRtlIdxs s) :
    x < s.length ∧ s.reverse[x]? = some SEP := by
  obtain ⟨h1, h2, h3⟩ := sepIdxsFrom_mem s.reverse 0 x hx
  simp only [Nat.sub_zero] at h2 h3
  rw [List.length_reverse] at h2
  exact ⟨h2, h3⟩

lemma sepRtlIdxs_ne_top {s : List Char} (hh : s.head? ≠ some SEP) {x : Nat}
    (hx : x ∈ sepRtlIdxs s) : x ≠ s.length - 1 := by
  obtain ⟨hlt, hget⟩ := sepRtlIdxs_mem hx
  intro heq
  cases s with
  | nil => simp at hlt
  | cons c t =>
    subst heq
    rw [List.reverse_cons] at hget
    have hlen : (c :: t).length - 1 = t.reverse.length := by simp
    rw [hlen, List.getElem?_append_right le_rfl] at hget
    simp at hget
    exact hh (by simp [hget])

lemma restoreSepsR_fst : ∀ (rs : List Nat) (t : List Char),
    (restoreSepsR rs t).1 = restoreSeps rs t := by
  intro rs
  induction rs with
  | nil => intro t; rfl
  | cons r rs ih =>
    intro t
    unfold restoreSepsR restoreSeps
    by_cases hr : r < t.length
    · simp [hr, ih]
    · simp [hr, ih]

lemma restoreSepsR_skipAll : ∀ (rs : List Nat) (t : List Char),
    (∀ x ∈ rs, ¬ x < t.length) → restoreSepsR rs t = (t, []) := by
  intro rs
  induction rs with
  | nil => intro t _; rfl
  | cons r rs ih =>
    intro t h
    unfold restoreSepsR
    rw [if_neg (h r (List.mem_cons_self r rs))]
    exact ih t (fun x hx => h x (List.mem_cons_of_mem r hx))

lemma restore_cases : ∀ (rs : List Nat) (t : List Char), List.Pairwise (· < ·) rs →
    ((restoreSepsR rs t).2 = rs ∧
      (restoreSepsR rs t).1.length = t.length + rs.length)
    ∨ (∃ r ∈ rs, (restoreSepsR rs t).1.length ≤ r) := by
  intro rs
  induction rs with
  | nil => intro t _; left; exact ⟨rfl, by simp [restoreSepsR]⟩
  | cons r rs ih =>
    intro t hpw
    rw [List.pairwise_cons] at hpw
    by_cases hr : r < t.length
    · have hstep : (if t.length - r > 0 then insertAt (t.length - r) SEP t else t) =
          insertAt (t.length - r) SEP t := by
        rw [if_pos (by omega)]
      have hlen : (insertAt (t.length - r) SEP t).length = t.length + 1 :=
        insertAt_length (by omega)
      have hcomp : restoreSepsR (r :: rs) t =
          ((restoreSepsR rs (insertAt (t.length - r) SEP t)).1,
           r :: (restoreSepsR rs (insertAt (t.length - r) SEP t)).2) := by
        rw [restoreSepsR, if_pos hr, hstep]
      rcases ih (insertAt (t.length - r) SEP t) hpw.2 with ⟨h2, hl⟩ | ⟨x, hx, hle⟩
      · left
        rw [hcomp]
        refine ⟨by simp [h2], ?_⟩
        simp only []
        rw [hl, hlen]
        simp
        omega
      · right
        refine ⟨x, List.mem_cons_of_mem _ hx, ?_⟩
        rw [hcomp]
        exact hle
    · right
      have hskip := restoreSepsR_skipAll rs t (fun x hx => by
        have := hpw.1 x hx
        omega)
      have hcomp : restoreSepsR (r :: rs) t = restoreSepsR rs t := by
        rw [restoreSepsR, if_neg hr]
      refine ⟨r, List.mem_cons_self r rs, ?_⟩
      rw [hcomp, hskip]
      show t.length ≤ r
      omega

lemma sepSpacing_eq_amended {rtl : List Nat} (hne : rtl ≠ []) :
    sepSpacing rtl = sepSpacingAmended rtl := by
  unfold sepSpacing sepSpacingAmended
  cases hrev : rtl.reverse with
  | nil =>
    exact absurd (by simpa using congrArg List.reverse hrev) hne
  | cons a tl =>
    cases tl with
    | nil =>
      have hra : rtl = [a] := by
        have := congrArg List.reverse hrev
        simpa using this
      subst hra
      simp
    | cons b tl2 => rfl

lemma sepPhase_amended_eq (s : List Char) (pl : Nat) (rendered : List Char)
    (hh : s.head? ≠ some SEP) :
    sepPhase s pl (sepRtlIdxs s) rendered =
      sepPhaseAmended s pl (sepRtlIdxs s) rendered := by
  have hfst := restoreSepsR_fst (sepRtlIdxs s) rendered
  by_cases hcond :
      (restoreSeps (sepRtlIdxs s) rendered).length > s.length ∧ sepRtlIdxs s ≠ []
  · rcases restore_cases (sepRtlIdxs s) rendered (sepRtlIdxs_pairwise s) with
      ⟨h2, _⟩ | ⟨r, hr, hle⟩
    · have hsp : sepSpacingAmended (restoreSepsR (sepRtlIdxs s) rendered).2 =
          sepSpacing (sepRtlIdxs s) := by
        rw [h2, sepSpacing_eq_amended hcond.2]
      unfold sepPhase sepPhaseAmended
      rw [hfst, hsp]
    · exfalso
      rw [hfst] at hle
      have hlt := (sepRtlIdxs_mem hr).1
      have hne := sepRtlIdxs_ne_top hh hr
      have hgt := hcond.1
      omega
  · unfold sepPhase sepPhaseAmended
    rw [hfst]
    rw [if_neg hcond, if_neg hcond]

lemma arithPhase_render_inv {s : List Char} {a : Int} {pl : Nat} {rtl : List Nat}
    {t : List Char} (h : arithPhase s a = .render pl rtl t) :
    rtl = sepRtlIdxs s ∧ s.head? ≠ some SEP := by
  unfold arithPhase at h
  by_cases hg : s = [] ∨ s.head? = some SEP ∨ s.getLast? = some SEP
  · rw [if_pos hg] at h
    cases h
  · rw [if_neg hg] at h
    push_neg at hg
    refine ⟨?_, hg.2.1⟩
    split at h
    · split at h
      · cases h
      · split at h
        · cases h
        · injection h with h1 h2 h3
          exact h2.symm
    · split at h
      · cases h
      · injection h with h1 h2 h3
        exact h2.symm

/-- Claim C5 counterexample: for the single-separator token `99_999`
the source uses the separator's right-to-left offset (3) as the
spacing, while the claim's rule (distance from the start of the digit
run, 2) would insert an extra separator; the two pipelines produce
different outputs, and the source's is `100_000`. -/
theorem c5_counterexample :
    increment (cs "99_999") 1 = .ok (cs "100_000") ∧
    incrementClaim5 (cs "99_999") 1 = .ok (cs "1_00_000") := by
  refine ⟨by decide, by decide⟩

/-- Claim C5 (amended): separators are re-inserted at the recorded
right-to-left offsets, skipping offsets outside the evolving text's
bounds; when the text grew past the original length and at least one
separator was recorded, extra separators are inserted from the first
separator toward the marker boundary at a spacing equal to the gap
between the two leftmost RESTORED separators when at least two exist,
or to the single restored separator's right-to-left offset (its
distance from the right end of the token, not from the start of the
digit run).  Under the growth condition the restored offsets coincide
with the recorded ones, so the two formulations agree on every input. -/
theorem c5_amended_redistribution :
    ∀ (s : List Char) (a : Int), increment s a = incrementAmended s a := by
  intro s a
  unfold increment incrementAmended
  cases ha : arithPhase s a with
  | reject => rfl
  | panic => rfl
  | render pl rtl t =>
    obtain ⟨hr, hh⟩ := arithPhase_render_inv ha
    subst hr
    exact sepPhase_amended_eq s pl t hh

/-! ### Claim C10: canonical tokens and the zero-increment identity -/

lemma isCanonDigit_spec {r : Nat} {c : Char} (h : isCanonDigit r c = true) :
    ∃ d, charVal c = some d ∧ d < r ∧ digitChar false d = c := by
  unfold isCanonDigit at h
  cases hv : charVal c with
  | none => rw [hv] at h; cases h
  | some d =>
    rw [hv] at h
    simp at h
    exact ⟨d, rfl, h.1, h.2⟩

lemma canon_notable {r : Nat} {c : Char} (hr : r ≤ 16) (h : isCanonDigit r c = true) :
    isValidDigit r c = true ∧ c ≠ SEP ∧ c ≠ '+' ∧ c ≠ '-' ∧
      ¬('A' ≤ c ∧ c ≤ 'Z') := by
  obtain ⟨d, hv, hdr, hdc⟩ := isCanonDigit_spec h
  have h16 : d < 16 := lt_of_lt_of_le hdr hr
  have hval : isValidDigit r c = true := by
    unfold isValidDigit
    rw [hv]
    simpa using hdr
  refine ⟨hval, ?_⟩
  subst hdc
  interval_cases d <;> exact ⟨by decide, by decide, by decide, by decide⟩

lemma isDecDigit_eq_valid (c : Char) : isDecDigit c = isValidDigit 10 c := rfl

lemma digitsValGo_some {r : Nat} : ∀ (l : List Char) (acc : Nat),
    (∀ c ∈ l, isValidDigit r c = true) →
    digitsValGo r acc l =
      some (l.foldl (fun a c => a * r + ((charVal c).getD 0)) acc) := by
  intro l
  induction l with
  | nil => intro acc _; rfl
  | cons c rest ih =>
    intro acc h
    have hc := h c (List.mem_cons_self c rest)
    unfold isValidDigit at hc
    cases hv : charVal c with
    | none => rw [hv] at hc; cases hc
    | some d =>
      rw [hv] at hc
      simp at hc
      unfold digitsValGo
      rw [hv]
      show (if d < r then digitsValGo r (acc * r + d) rest else none) = _
      rw [if_pos hc, ih (acc * r + d) (fun x hx => h x (List.mem_cons_of_mem c hx))]
      simp [hv]

lemma digitsVal?_some {r : Nat} {l : List Char} (hne : l ≠ [])
    (h : ∀ c ∈ l, isValidDigit r c = true) :
    digitsVal? r l = some (digitsToNat r l) := by
  cases l with
  | nil => exact absurd rfl hne
  | cons c rest => exact digitsValGo_some (c :: rest) 0 h

lemma i128SatAdd_zero {v : Int} (h0 : 0 ≤ v) (hmax : v ≤ I128MAX) :
    i128SatAdd v 0 = v := by
  unfold i128SatAdd
  rw [add_zero, min_eq_right hmax, max_eq_right]
  refine le_trans ?_ h0
  unfold I128MIN
  norm_num

lemma dropWhile_head_false {p : Char → Bool} : ∀ {l : List Char} {c : Char}
    {rest : List Char}, l.dropWhile p = c :: rest → p c = false := by
  intro l
  induction l with
  | nil => intro c rest h; cases h
  | cons a t ih =>
    intro c rest h
    rw [List.dropWhile_cons] at h
    by_cases ha : p a
    · rw [if_pos ha] at h
      exact ih h
    · rw [if_neg ha] at h
      cases h
      simpa using ha

lemma digitsToNat_replicate_append (r : Nat) : ∀ (k : Nat) (l : List Char),
    digitsToNat r (List.replicate k '0' ++ l) = digitsToNat r l := by
  intro k
  induction k with
  | zero => intro l; rfl
  | succ k ih =>
    intro l
    rw [List.replicate_succ, List.cons_append, digitsToNat_cons_zero, ih]

lemma natToStr_canon {b : Nat} (hb : 2 ≤ b) (hb16 : b ≤ 16) {c : Char}
    {rest : List Char} (hcanon : ∀ x ∈ c :: rest, isCanonDigit b x = true)
    (hc0 : c ≠ '0') :
    natToStr b false (digitsToNat b (c :: rest)) = c :: rest := by
  have hof := digitsToNat_eq_ofDigits b (c :: rest)
  have hw1 : ∀ d ∈ (((c :: rest).map fun x => (charVal x).getD 0)).reverse, d < b := by
    intro d hd
    rw [List.mem_reverse, List.mem_map] at hd
    obtain ⟨x, hx, rfl⟩ := hd
    obtain ⟨dv, hv, hdr, _⟩ := isCanonDigit_spec (hcanon x hx)
    simp [hv, hdr]
  have hLne : (((c :: rest).map fun x => (charVal x).getD 0)).reverse ≠ [] := by simp
  obtain ⟨dc, hv, hdcb, hdcc⟩ := isCanonDigit_spec (hcanon c (List.mem_cons_self c rest))
  have hlastq : (((c :: rest).map fun x => (charVal x).getD 0)).reverse.getLast? =
      some ((charVal c).getD 0) := by
    rw [List.getLast?_reverse]
    simp
  have hlast : (((c :: rest).map fun x => (charVal x).getD 0)).reverse.getLast hLne =
      (charVal c).getD 0 := by
    have := List.getLast?_eq_getLast _ hLne
    rw [this] at hlastq
    exact Option.some.inj hlastq
  have hlast0 : ∀ h2 : (((c :: rest).map fun x => (charVal x).getD 0)).reverse ≠ [],
      (((c :: rest).map fun x => (charVal x).getD 0)).reverse.getLast h2 ≠ 0 := by
    intro h2
    rw [hlast]
    rw [hv]
    simp
    intro h0
    apply hc0
    rw [← hdcc, h0]
    rfl
  have hdig := Nat.digits_ofDigits b (by omega)
    ((((c :: rest).map fun x => (charVal x).getD 0)).reverse) hw1 hlast0
  have hvne : digitsToNat b (c :: rest) ≠ 0 := by
    intro h0
    rw [hof] at h0
    rw [h0] at hdig
    simp at hdig
  unfold natToStr
  rw [if_neg hvne, natToDigits_eq hb, hof, hdig, List.reverse_reverse, List.map_map]
  conv_rhs => rw [← List.map_id (c :: rest)]
  apply List.map_congr_left
  intro x hx
  obtain ⟨dx, hvx, _, hdx⟩ := isCanonDigit_spec (hcanon x hx)
  simp [hvx, hdx]

lemma padZeros_canon_id {b : Nat} (hb : 2 ≤ b) (hb16 : b ≤ 16) {t : List Char}
    (hne : t ≠ []) (hcanon : ∀ c ∈ t, isCanonDigit b c = true) :
    padZeros t.length (natToStr b false (digitsToNat b t)) = t := by
  have hsplit := List.takeWhile_append_dropWhile (fun c => c == '0') t
  have hz : t.takeWhile (fun c => c == '0') =
      List.replicate (t.takeWhile (fun c => c == '0')).length '0' := by
    rw [List.eq_replicate_iff]
    refine ⟨rfl, ?_⟩
    intro x hx
    simpa using List.mem_takeWhile_imp hx
  have hval : digitsToNat b t = digitsToNat b (t.dropWhile (fun c => c == '0')) := by
    conv_lhs => rw [← hsplit, hz]
    rw [digitsToNat_replicate_append]
  cases hdrop : t.dropWhile (fun c => c == '0') with
  | nil =>
    have hts : t = List.replicate t.length '0' := by
      conv_lhs => rw [← hsplit, hdrop]
      rw [List.append_nil, hz]
      congr 1
      conv_rhs => rw [← hsplit, hdrop]
      rw [List.append_nil]
    have hv0 : digitsToNat b t = 0 := by
      rw [hval, hdrop]
      rfl
    rw [hv0]
    have h1 : natToStr b false 0 = ['0'] := rfl
    rw [h1]
    unfold padZeros
    have hlen1 : 1 ≤ t.length := by
      cases t with
      | nil => exact absurd rfl hne
      | cons a l => simp
    conv_rhs => rw [hts]
    have : t.length = (t.length - 1) + 1 := by omega
    rw [this, List.replicate_succ']
    simp
  | cons r0 rrest =>
    have hr0 : r0 ≠ '0' := by
      have := dropWhile_head_false hdrop
      simpa using this
    have hsub : ∀ x ∈ r0 :: rrest, isCanonDigit b x = true := by
      intro x hx
      apply hcanon
      rw [← hsplit, hdrop]
      exact List.mem_append_right _ hx
    have hx := natToStr_canon hb hb16 hsub hr0
    rw [hval, hdrop, hx]
    unfold padZeros
    have hlen : (r0 :: rrest).length ≤ t.length := by
      conv_rhs => rw [← hsplit, hdrop]
      simp
    have hzlen : t.length - (r0 :: rrest).length =
        (t.takeWhile (fun c => c == '0')).length := by
      conv_lhs => rw [← hsplit, hdrop]
      simp
    rw [hzlen]
    conv_rhs => rw [← hsplit, hdrop, hz]

lemma stripSeps_id {s : List Char} (h : ∀ c ∈ s, c ≠ SEP) : stripSeps s = s := by
  unfold stripSeps
  apply List.filter_eq_self.mpr
  intro a ha
  simpa using h a ha

lemma sepIdxsFrom_nil : ∀ (l : List Char), (∀ c ∈ l, c ≠ SEP) → ∀ i, sepIdxsFrom i l = [] := by
  intro l
  induction l with
  | nil => intro _ i; rfl
  | cons c t ih =>
    intro h i
    unfold sepIdxsFrom
    rw [if_neg (h c (List.mem_cons_self c t))]
    exact ih (fun x hx => h x (List.mem_cons_of_mem c hx)) (i + 1)

lemma sepRtlIdxs_nil {s : List Char} (h : ∀ c ∈ s, c ≠ SEP) : sepRtlIdxs s = [] :=
  sepIdxsFrom_nil s.reverse (fun c hc => h c (List.mem_reverse.mp hc)) 0

lemma sepPhase_nil_rtl (s : List Char) (pl : Nat) (rendered : List Char) :
    sepPhase s pl [] rendered = .ok rendered := by
  unfold sepPhase restoreSeps
  simp

lemma upperCount_canon_zero {r : Nat} (hr : r ≤ 16) {t : List Char}
    (hcanon : ∀ c ∈ t, isCanonDigit r c = true) : upperCount t = 0 := by
  unfold upperCount
  rw [List.length_eq_zero, List.filter_eq_nil_iff]
  intro a ha
  have := (canon_notable hr (hcanon a ha)).2.2.2.2
  simpa using this

lemma findPattern_hexPfx (t : List Char) :
    findPattern ('0' :: 'x' :: t) = ⟨.base16, ['0', 'x']⟩ := by
  unfold findPattern hexMatch
  simp

lemma quoteMatch_after_nondigit {letter q : Char} (hq1 : isDecDigit q = false)
    (hq2 : q ≠ '\'') (c : Char) (u : List Char) :
    quoteMatch letter ('0' :: q :: c :: u) = none := by
  unfold quoteMatch
  rw [List.dropWhile_cons, if_pos (show isDecDigit '0' = true from rfl),
    List.dropWhile_cons, if_neg (by simp [hq1])]
  dsimp only
  rw [if_neg]
  intro hand
  exact hq2 hand.1

lemma findPattern_octPfx (c : Char) (rest : List Char) :
    findPattern ('0' :: 'o' :: c :: rest) = ⟨.base8, ['0', 'o']⟩ := by
  have hq : ∀ letter, quoteMatch letter ('0' :: 'o' :: c :: rest) = none := fun letter =>
    quoteMatch_after_nondigit (by decide) (by decide) c rest
  have hhex : hexMatch ('0' :: 'o' :: c :: rest) = none := by
    unfold hexMatch
    dsimp only
    rw [if_neg (by decide)]
    exact hq 'h'
  have hdec : decMatch ('0' :: 'o' :: c :: rest) = none := hq 'd'
  have hoct : octMatch ('0' :: 'o' :: c :: rest) = some ['0', 'o'] := by
    unfold octMatch
    dsimp only
    rw [if_pos ⟨rfl, rfl⟩]
  simp [findPattern, hhex, hdec, hoct]

lemma findPattern_binPfx (c : Char) (rest : List Char) :
    findPattern ('0' :: 'b' :: c :: rest) = ⟨.base2, ['0', 'b']⟩ := by
  have hq : ∀ letter, quoteMatch letter ('0' :: 'b' :: c :: rest) = none := fun letter =>
    quoteMatch_after_nondigit (by decide) (by decide) c rest
  have hhex : hexMatch ('0' :: 'b' :: c :: rest) = none := by
    unfold hexMatch
    dsimp only
    rw [if_neg (by decide)]
    exact hq 'h'
  have hdec : decMatch ('0' :: 'b' :: c :: rest) = none := hq 'd'
  have hoct : octMatch ('0' :: 'b' :: c :: rest) = none := by
    unfold octMatch
    dsimp only
    rw [if_neg (by decide)]
  have hbin : binMatch ('0' :: 'b' :: c :: rest) = some ['0', 'b'] := by
    unfold binMatch
    dsimp only
    rw [if_pos ⟨rfl, rfl⟩]
  simp [findPattern, hhex, hdec, hoct, hbin]

lemma findPattern_allDec {t : List Char} (h : ∀ c ∈ t, isDecDigit c = true) :
    findPattern t = ⟨.base10, []⟩ := by
  have hdw : t.dropWhile isDecDigit = [] :=
    List.dropWhile_eq_nil_iff.mpr (fun x hx => h x hx)
  have hq : ∀ letter, quoteMatch letter t = none := by
    intro letter
    unfold quoteMatch
    rw [hdw]
  have hsecond : ∀ (c1 c2 : Char) (t2 : List Char), t = c1 :: c2 :: t2 →
      isDecDigit c2 = true := by
    intro c1 c2 t2 ht
    apply h
    rw [ht]
    exact List.mem_cons_of_mem _ (List.mem_cons_self _ _)
  have hhex : hexMatch t = none := by
    cases ht : t with
    | nil => rfl
    | cons c1 t1 =>
      cases t1 with
      | nil =>
        show quoteMatch 'h' [c1] = none
        have hqh := hq 'h'
        rw [ht] at hqh
        exact hqh
      | cons c2 t2 =>
        unfold hexMatch
        dsimp only
        rw [if_neg]
        · have hqh := hq 'h'
          rw [ht] at hqh
          exact hqh
        · intro hand
          have h2 := hsecond c1 c2 t2 ht
          rw [hand.2] at h2
          cases h2
  have hoct : octMatch t = none := by
    cases ht : t with
    | nil => rfl
    | cons c1 t1 =>
      cases t1 with
      | nil => rfl
      | cons c2 t2 =>
        unfold octMatch
        dsimp only
        rw [if_neg]
        intro hand
        have h2 := hsecond c1 c2 t2 ht
        rw [hand.2] at h2
        cases h2
  have hbin : binMatch t = none := by
    cases ht : t with
    | nil => rfl
    | cons c1 t1 =>
      cases t1 with
      | nil =>
        show quoteMatch 'b' [c1] = none
        have hqb := hq 'b'
        rw [ht] at hqb
        exact hqb
      | cons c2 t2 =>
        unfold binMatch
        dsimp only
        rw [if_neg]
        · have hqb := hq 'b'
          rw [ht] at hqb
          exact hqb
        · intro hand
          have h2 := hsecond c1 c2 t2 ht
          rw [hand.2] at h2
          cases h2
  have hdm : decMatch t = none := hq 'd'
  simp [findPattern, hhex, hdm, hoct, hbin]

lemma natToStr_canon_full {t : List Char} (hne : t ≠ [])
    (hcanon : ∀ c ∈ t, isCanonDigit 10 c = true) (hz : startsZero t = false) :
    natToStr 10 false (digitsToNat 10 t) = t := by
  have hx := padZeros_canon_id (b := 10) (by norm_num) (by norm_num) hne hcanon
  by_cases hlen : (natToStr 10 false (digitsToNat 10 t)).length = t.length
  · conv_rhs => rw [← hx]
    unfold padZeros
    rw [hlen, Nat.sub_self]
    simp
  · exfalso
    have hlen2 : (natToStr 10 false (digitsToNat 10 t)).length ≤ t.length := by
      have hcl := congrArg List.length hx
      rw [padZeros_length] at hcl
      omega
    have hhead0 : t.head? = some '0' := by
      conv_lhs => rw [← hx]
      unfold padZeros
      cases hk2 : t.length - (natToStr 10 false (digitsToNat 10 t)).length with
      | zero => omega
      | succ k =>
        rw [List.replicate_succ]
        simp
    cases t with
    | nil => exact hne rfl
    | cons c rest =>
      rw [List.head?_cons] at hhead0
      have hc0 : c = '0' := Option.some.inj hhead0
      subst hc0
      simp [startsZero] at hz

lemma increment_zero_dec {t : List Char} (hne : t ≠ [])
    (hcanon : ∀ c ∈ t, isCanonDigit 10 c = true)
    (hbound : (digitsToNat 10 t : Int) ≤ I128MAX) :
    increment t 0 = .ok t := by
  have hr16 : (10 : Nat) ≤ 16 := by norm_num
  have hvalid : ∀ c ∈ t, isValidDigit 10 c = true :=
    fun c hc => (canon_notable hr16 (hcanon c hc)).1
  have hnsep : ∀ c ∈ t, c ≠ SEP :=
    fun c hc => (canon_notable hr16 (hcanon c hc)).2.1
  have hdec : ∀ c ∈ t, isDecDigit c = true := fun c hc => hvalid c hc
  have hhead : t.head? ≠ some SEP := by
    cases t with
    | nil => simp
    | cons c rest =>
      simp only [List.head?_cons, ne_eq, Option.some.injEq]
      exact hnsep c (List.mem_cons_self c rest)
  have hlastne : t.getLast? ≠ some SEP := by
    cases t with
    | nil => simp
    | cons c rest =>
      rw [List.getLast?_eq_getLast _ (by simp)]
      intro hcon
      exact hnsep _ (List.getLast_mem (l := c :: rest) (by simp))
        (Option.some.inj hcon)
  have hguard : ¬(t = [] ∨ t.head? = some SEP ∨ t.getLast? = some SEP) := by
    push_neg
    exact ⟨hne, hhead, hlastne⟩
  have hfp := findPattern_allDec hdec
  have hstrip : stripSeps t = t := stripSeps_id hnsep
  have hrtl : sepRtlIdxs t = [] := sepRtlIdxs_nil hnsep
  have hparse : i128FromStrRadix 10 t = some ((digitsToNat 10 t : Int)) := by
    cases t with
    | nil => exact absurd rfl hne
    | cons c rest =>
      have hc := canon_notable hr16 (hcanon c (List.mem_cons_self c rest))
      unfold i128FromStrRadix
      dsimp only
      rw [if_neg hc.2.2.1, if_neg hc.2.2.2.1,
        digitsVal?_some (by simp) hvalid]
      dsimp only
      rw [if_pos hbound]
  have hv0 : (0 : Int) ≤ (digitsToNat 10 t : Int) := Int.natCast_nonneg _
  have hsat : i128SatAdd ((digitsToNat 10 t : Int)) 0 = (digitsToNat 10 t : Int) :=
    i128SatAdd_zero hv0 hbound
  have hrender : decRender t t.length ((digitsToNat 10 t : Int)) = t := by
    unfold decRender
    by_cases hz : startsZero t
    · rw [if_pos hz]
      unfold fmtSignedDec
      rw [if_neg (by omega), Int.natAbs_ofNat]
      exact padZeros_canon_id (by norm_num) (by norm_num) hne hcanon
    · rw [if_neg hz]
      unfold fmtMinDec
      rw [if_neg (by omega), Int.natAbs_ofNat]
      exact natToStr_canon_full hne hcanon (by simpa using hz)
  unfold increment arithPhase
  rw [if_neg hguard, hfp]
  dsimp only
  rw [hstrip, hrtl, hparse]
  dsimp only
  rw [hsat]
  have hdecide : decide ((digitsToNat 10 t : Int) < 0) = false := by simp
  rw [hdecide]
  have hfl : decFmtLen t.length false false ([] : List Nat).length = (t.length : Int) := by
    simp [decFmtLen]
  rw [hfl, if_neg (by omega)]
  have htn : ((t.length : Int)).toNat = t.length := Int.toNat_natCast t.length
  rw [htn, hrender]
  dsimp only
  exact sepPhase_nil_rtl t _ t

lemma u128Parse_canon {r : Nat} (hr : r ≤ 16) {c : Char} {rest : List Char}
    (hcanon : ∀ x ∈ c :: rest, isCanonDigit r x = true)
    (hbound : (digitsToNat r (c :: rest) : Int) ≤ I128MAX) :
    u128FromStrRadix r (c :: rest) = some (digitsToNat r (c :: rest)) := by
  have hc := canon_notable hr (hcanon c (List.mem_cons_self c rest))
  have hvalid : ∀ x ∈ c :: rest, isValidDigit r x = true :=
    fun x hx => (canon_notable hr (hcanon x hx)).1
  have hle : digitsToNat r (c :: rest) ≤ U128MAX := by
    have h2 : I128MAX ≤ (U128MAX : Int) := by decide
    exact_mod_cast le_trans hbound h2
  unfold u128FromStrRadix
  dsimp only
  rw [if_neg hc.2.2.1, if_neg hc.2.2.2.1, digitsVal?_some (by simp) hvalid]
  dsimp only
  rw [if_pos hle]

lemma increment_zero_nondec {b : Base} (hb10 : b ≠ .base10) {t : List Char}
    (hne : t ≠ []) (hcanon : ∀ c ∈ t, isCanonDigit b.radix c = true)
    (hbound : (digitsToNat b.radix t : Int) ≤ I128MAX) :
    increment (basePfx b ++ t) 0 = .ok (basePfx b ++ t) := by
  cases t with
  | nil => exact absurd rfl hne
  | cons c rest =>
  cases b with
  | base10 => exact absurd rfl hb10
  | base16 =>
    have hr : (16 : Nat) ≤ 16 := by norm_num
    dsimp only [Base.radix] at hcanon hbound
    have hnsep : ∀ x ∈ c :: rest, x ≠ SEP :=
      fun x hx => (canon_notable hr (hcanon x hx)).2.1
    have hallsep : ∀ x ∈ '0' :: 'x' :: c :: rest, x ≠ SEP := by
      intro x hx
      rcases List.mem_cons.mp hx with h | hx2
      · subst h; decide
      rcases List.mem_cons.mp hx2 with h | hx3
      · subst h; decide
      · exact hnsep x hx3
    have hguard : ¬('0' :: 'x' :: c :: rest = [] ∨
        ('0' :: 'x' :: c :: rest).head? = some SEP ∨
        ('0' :: 'x' :: c :: rest).getLast? = some SEP) := by
      push_neg
      refine ⟨by simp, by rw [List.head?_cons]; decide, ?_⟩
      rw [List.getLast?_eq_getLast _ (by simp)]
      intro hcon
      exact hallsep _ (List.getLast_mem (l := '0' :: 'x' :: c :: rest) (by simp))
        (Option.some.inj hcon)
    have hfp := findPattern_hexPfx (c :: rest)
    have hstrip : stripSeps ('0' :: 'x' :: c :: rest) = '0' :: 'x' :: c :: rest :=
      stripSeps_id hallsep
    have hrtl : sepRtlIdxs ('0' :: 'x' :: c :: rest) = [] := sepRtlIdxs_nil hallsep
    have hparse := u128Parse_canon hr hcanon hbound
    have hv0 : (0 : Int) ≤ (digitsToNat 16 (c :: rest) : Int) := Int.natCast_nonneg _
    have hcast : u128AsI128 (digitsToNat 16 (c :: rest)) =
        (digitsToNat 16 (c :: rest) : Int) := by
      unfold u128AsI128
      rw [if_pos hbound]
    have hsat : i128SatAdd ((digitsToNat 16 (c :: rest) : Int)) 0 =
        (digitsToNat 16 (c :: rest) : Int) := i128SatAdd_zero hv0 hbound
    have hcf : clampFloor ((digitsToNat 16 (c :: rest) : Int)) =
        (digitsToNat 16 (c :: rest) : Int) := by
      unfold clampFloor
      rw [if_neg (by omega)]
    have hup : upperCount (c :: rest) = 0 := upperCount_canon_zero hr hcanon
    have hpad := padZeros_canon_id (b := 16) (by norm_num) hr hne hcanon
    show increment ('0' :: 'x' :: c :: rest) 0 = .ok ('0' :: 'x' :: c :: rest)
    unfold increment arithPhase
    rw [if_neg hguard, hfp]
    dsimp only [Base.radix]
    rw [hstrip, hrtl]
    have hdrop2 : List.drop (['0', 'x'] : List Char).length ('0' :: 'x' :: c :: rest) =
        c :: rest := by simp
    rw [hdrop2, hparse]
    dsimp only
    rw [hcast, hsat, hcf]
    unfold nonDecDigits
    rw [hup, if_neg (by omega), Int.toNat_natCast]
    have hfl : ('0' :: 'x' :: c :: rest).length - (['0', 'x'] : List Char).length -
        ([] : List Nat).length = (c :: rest).length := by simp
    rw [hfl, hpad]
    exact sepPhase_nil_rtl _ _ _
  | base8 =>
    have hr : (8 : Nat) ≤ 16 := by norm_num
    dsimp only [Base.radix] at hcanon hbound
    have hnsep : ∀ x ∈ c :: rest, x ≠ SEP :=
      fun x hx => (canon_notable hr (hcanon x hx)).2.1
    have hallsep : ∀ x ∈ '0' :: 'o' :: c :: rest, x ≠ SEP := by
      intro x hx
      rcases List.mem_cons.mp hx with h | hx2
      · subst h; decide
      rcases List.mem_cons.mp hx2 with h | hx3
      · subst h; decide
      · exact hnsep x hx3
    have hguard : ¬('0' :: 'o' :: c :: rest = [] ∨
        ('0' :: 'o' :: c :: rest).head? = some SEP ∨
        ('0' :: 'o' :: c :: rest).getLast? = some SEP) := by
      push_neg
      refine ⟨by simp, by rw [List.head?_cons]; decide, ?_⟩
      rw [List.getLast?_eq_getLast _ (by simp)]
      intro hcon
      exact hallsep _ (List.getLast_mem (l := '0' :: 'o' :: c :: rest) (by simp))
        (Option.some.inj hcon)
    have hfp := findPattern_octPfx c rest
    have hstrip : stripSeps ('0' :: 'o' :: c :: rest) = '0' :: 'o' :: c :: rest :=
      stripSeps_id hallsep
    have hrtl : sepRtlIdxs ('0' :: 'o' :: c :: rest) = [] := sepRtlIdxs_nil hallsep
    have hparse := u128Parse_canon hr hcanon hbound
    have hv0 : (0 : Int) ≤ (digitsToNat 8 (c :: rest) : Int) := Int.natCast_nonneg _
    have hcast : u128AsI128 (digitsToNat 8 (c :: rest)) =
        (digitsToNat 8 (c :: rest) : Int) := by
      unfold u128AsI128
      rw [if_pos hbound]
    have hsat : i128SatAdd ((digitsToNat 8 (c :: rest) : Int)) 0 =
        (digitsToNat 8 (c :: rest) : Int) := i128SatAdd_zero hv0 hbound
    have hcf : clampFloor ((digitsToNat 8 (c :: rest) : Int)) =
        (digitsToNat 8 (c :: rest) : Int) := by
      unfold clampFloor
      rw [if_neg (by omega)]
    have hpad := padZeros_canon_id (b := 8) (by norm_num) hr hne hcanon
    show increment ('0' :: 'o' :: c :: rest) 0 = .ok ('0' :: 'o' :: c :: rest)
    unfold increment arithPhase
    rw [if_neg hguard, hfp]
    dsimp only [Base.radix]
    rw [hstrip, hrtl]
    have hdrop2 : List.drop (['0', 'o'] : List Char).length ('0' :: 'o' :: c :: rest) =
        c :: rest := by simp
    rw [hdrop2, hparse]
    dsimp only
    rw [hcast, hsat, hcf]
    unfold nonDecDigits
    dsimp only [Base.radix]
    rw [Int.toNat_natCast]
    have hfl : ('0' :: 'o' :: c :: rest).length - (['0', 'o'] : List Char).length -
        ([] : List Nat).length = (c :: rest).length := by simp
    rw [hfl, hpad]
    exact sepPhase_nil_rtl _ _ _
  | base2 =>
    have hr : (2 : Nat) ≤ 16 := by norm_num
    dsimp only [Base.radix] at hcanon hbound
    have hnsep : ∀ x ∈ c :: rest, x ≠ SEP :=
      fun x hx => (canon_notable hr (hcanon x hx)).2.1
    have hallsep : ∀ x ∈ '0' :: 'b' :: c :: rest, x ≠ SEP := by
      intro x hx
      rcases List.mem_cons.mp hx with h | hx2
      · subst h; decide
      rcases List.mem_cons.mp hx2 with h | hx3
      · subst h; decide
      · exact hnsep x hx3
    have hguard : ¬('0' :: 'b' :: c :: rest = [] ∨
        ('0' :: 'b' :: c :: rest).head? = some SEP ∨
        ('0' :: 'b' :: c :: rest).getLast? = some SEP) := by
      push_neg
      refine ⟨by simp, by rw [List.head?_cons]; decide, ?_⟩
      rw [List.getLast?_eq_getLast _ (by simp)]
      intro hcon
      exact hallsep _ (List.getLast_mem (l := '0' :: 'b' :: c :: rest) (by simp))
        (Option.some.inj hcon)
    have hfp := findPattern_binPfx c rest
    have hstrip : stripSeps ('0' :: 'b' :: c :: rest) = '0' :: 'b' :: c :: rest :=
      stripSeps_id hallsep
    have hrtl : sepRtlIdxs ('0' :: 'b' :: c :: rest) = [] := sepRtlIdxs_nil hallsep
    have hparse := u128Parse_canon hr hcanon hbound
    have hv0 : (0 : Int) ≤ (digitsToNat 2 (c :: rest) : Int) := Int.natCast_nonneg _
    have hcast : u128AsI128 (digitsToNat 2 (c :: rest)) =
        (digitsToNat 2 (c :: rest) : Int) := by
      unfold u128AsI128
      rw [if_pos hbound]
    have hsat : i128SatAdd ((digitsToNat 2 (c :: rest) : Int)) 0 =
        (digitsToNat 2 (c :: rest) : Int) := i128SatAdd_zero hv0 hbound
    have hcf : clampFloor ((digitsToNat 2 (c :: rest) : Int)) =
        (digitsToNat 2 (c :: rest) : Int) := by
      unfold clampFloor
      rw [if_neg (by omega)]
    have hpad := padZeros_canon_id (b := 2) (by norm_num) hr hne hcanon
    show increment ('0' :: 'b' :: c :: rest) 0 = .ok ('0' :: 'b' :: c :: rest)
    unfold increment arithPhase
    rw [if_neg hguard, hfp]
    dsimp only [Base.radix]
    rw [hstrip, hrtl]
    have hdrop2 : List.drop (['0', 'b'] : List Char).length ('0' :: 'b' :: c :: rest) =
        c :: rest := by simp
    rw [hdrop2, hparse]
    dsimp only
    rw [hcast, hsat, hcf]
    unfold nonDecDigits
    dsimp only [Base.radix]
    rw [Int.toNat_natCast]
    have hfl : ('0' :: 'b' :: c :: rest).length - (['0', 'b'] : List Char).length -
        ([] : List Nat).length = (c :: rest).length := by simp
    rw [hfl, hpad]
    exact sepPhase_nil_rtl _ _ _

/-- Claim C10 counterexample: zero-increment is not the identity.  A
hexadecimal token with magnitude `2^128 - 1` is accepted and rewritten
to an all-zero token of the same width (the unsigned-to-signed cast
wraps the magnitude to `-1`, which the non-decimal floor clamps to 0). -/
theorem c10_counterexample :
    increment (cs "0xffffffffffffffffffffffffffffffff") 0 =
      .ok (cs "0x00000000000000000000000000000000") ∧
    RunRes.ok (cs "0x00000000000000000000000000000000") ≠
      RunRes.ok (cs "0xffffffffffffffffffffffffffffffff") := by
  refine ⟨by decide, by decide⟩

/-- Claim C10 (amended): zero-increment is the identity on canonical
accepted tokens: a non-empty separator-free, sign-free string of
canonical (lowercase) digits for the recognized base, optionally behind
its `0x`/`0o`/`0b` marker, whose magnitude is below `2^127`.  It is not
the identity in general: sign characters are dropped, zero-padded
decimal tokens with separators shrink, and non-decimal magnitudes of
`2^127` and above are rewritten (see the counterexample). -/
theorem c10_amended_zero_identity :
    (∀ t : List Char, t ≠ [] → (∀ c ∈ t, isCanonDigit 10 c = true) →
        (digitsToNat 10 t : Int) ≤ I128MAX → increment t 0 = .ok t) ∧
    (∀ (b : Base) (t : List Char), b ≠ .base10 → t ≠ [] →
        (∀ c ∈ t, isCanonDigit b.radix c = true) →
        (digitsToNat b.radix t : Int) ≤ I128MAX →
        increment (basePfx b ++ t) 0 = .ok (basePfx b ++ t)) :=
  ⟨fun _ h1 h2 h3 => increment_zero_dec h1 h2 h3,
   fun _ _ hb h1 h2 h3 => increment_zero_nondec hb h1 h2 h3⟩

/-- Witness for `c10_amended_zero_identity` at concrete tokens. -/
theorem c10_witness :
    increment (cs "007") 0 = .ok (cs "007") ∧
    increment (cs "0x00ff") 0 = .ok (cs "0x00ff") :=
  ⟨c10_amended_zero_identity.1 (cs "007") (by decide) (by decide) (by decide),
   c10_amended_zero_identity.2 .base16 (cs "00ff") (by decide) (by decide) (by decide)
     (by decide)⟩

/-! ### The embedding reproduces the source's own test suite -/

example : increment (cs "100") 1 = .ok (cs "101") := by decide
example : increment (cs "100") (-1) = .ok (cs "99") := by decide
example : increment (cs "99") 1 = .ok (cs "100") := by decide
example : increment (cs "100") 1000 = .ok (cs "1100") := by decide
example : increment (cs "100") (-1000) = .ok (cs "-900") := by decide
example : increment (cs "-1") 1 = .ok (cs "0") := by decide
example : increment (cs "-1") 2 = .ok (cs "1") := by decide
example : increment (cs "1") (-1) = .ok (cs "0") := by decide
example : increment (cs "1") (-2) = .ok (cs "-1") := by decide
example : increment (cs "0x0100") 1 = .ok (cs "0x0101") := by decide
example : increment (cs "0x0100") (-1) = .ok (cs "0x00ff") := by decide
example : increment (cs "0x0001") (-1) = .ok (cs "0x0000") := by decide
example : increment (cs "0x0000") (-1) = .ok (cs "0x0000") := by decide
example : increment (cs "16'h0100") 1 = .ok (cs "16'h0101") := by decide
example : increment (cs "16'h0100") (-1) = .ok (cs "16'h00ff") := by decide
example : increment (cs "16'h0000") (-1) = .ok (cs "16'h0000") := by decide
example : increment (cs "'h0100") 1 = .ok (cs "'h0101") := by decide
example : increment (cs "'h0000") (-1) = .ok (cs "'h0000") := by decide
example : increment (cs "0xffffffffffffffff") 2 = .ok (cs "0x10000000000000001") := by decide
example : increment (cs "0xffffffffffffffff") (-1) = .ok (cs "0xfffffffffffffffe") := by decide
example : increment (cs "64'hffffffffffffffff") 1 = .ok (cs "64'h10000000000000000") := by
  decide
example : increment (cs "64'hABCDEF1234567890") 1 = .ok (cs "64'hABCDEF1234567891") := by
  decide
example : increment (cs "0o0107") 1 = .ok (cs "0o0110") := by decide
example : increment (cs "0o0110") (-1) = .ok (cs "0o0107") := by decide
example : increment (cs "0o7777") 1 = .ok (cs "0o10000") := by decide
example : increment (cs "0o1000") (-1) = .ok (cs "0o0777") := by decide
example : increment (cs "0o0107") 10 = .ok (cs "0o0121") := by decide
example : increment (cs "0o1777777777777777777777") 1 =
    .ok (cs "0o2000000000000000000000") := by decide
example : increment (cs "0b00000100") 1 = .ok (cs "0b00000101") := by decide
example : increment (cs "0b00000100") (-2) = .ok (cs "0b00000010") := by decide
example : increment (cs "0b00111111") 10 = .ok (cs "0b01001001") := by decide
example : increment (cs "0b11111111") 1 = .ok (cs "0b100000000") := by decide
example : increment (cs "0b10000000") (-1) = .ok (cs "0b01111111") := by decide
example : increment (cs "0b0000") (-1) = .ok (cs "0b0000") := by decide
example : increment (cs "128'b00000100") 2 = .ok (cs "128'b00000110") := by decide
example : increment (cs "128'b11111111") 1 = .ok (cs "128'b100000000") := by decide
example : increment (cs "999_999") 1 = .ok (cs "1_000_000") := by decide
example : increment (cs "1_000_000") (-1) = .ok (cs "999_999") := by decide
example : increment (cs "-999_999") (-1) = .ok (cs "-1_000_000") := by decide
example : increment (cs "0x0000_0000_0001") 8589869056 = .ok (cs "0x0001_ffff_0001") := by
  decide
example : increment (cs "0x0000_0000_0000") (-1) = .ok (cs "0x0000_0000_0000") := by decide
example : increment (cs "64'h0000_0000_0001") 8589869056 =
    .ok (cs "64'h0001_ffff_0001") := by decide
example : increment (cs "0b01111111_11111111") 1 = .ok (cs "0b10000000_00000000") := by
  decide
example : increment (cs "0b11111111_11111111") 1 = .ok (cs "0b1_00000000_00000000") := by
  decide
example : increment (cs "9_") 1 = .rejected := by decide
example : increment (cs "_9") 1 = .rejected := by decide
example : increment (cs "_9_") 1 = .rejected := by decide
